import Mathlib

/-!
Verification development for the brokkr saga orchestrator
(src/lib/src/entities/saga.ts, src/lib/src/entities/saga-step.ts,
src/lib/src/helpers/db.ts, src/lib/src/queue-manager.ts).

The embedding mirrors the TypeScript source: JSON-ish runtime values are
the type Val; persisted step records (interface ISagaStep) are records of
optional fields, since the record layer stores JSON objects whose keys may
be absent; the store for one saga is an insertion-ordered association list
from step id to record, matching the in-memory client (a JS Map keyed by
table and key, enumerated in insertion order). Asynchronous methods are
embedded as state-passing functions returning DbResult: a normal result,
or a thrown error together with the store state at the moment of the
throw (JS exceptions do not roll back earlier writes).
-/

set_option maxRecDepth 4000

namespace Brokkr

/-- JavaScript runtime values as they can appear in step args and results:
null, booleans, numbers, strings, and a function value (the representative
non-JSON-encodable value: stringifying a top-level function yields
undefined and parsing that throws). The saga engine never inspects inside
composite payloads, so arrays and objects are not modelled separately;
every branch of the source depends on a value only through truthiness and
the stringify round trip, and both are constant on composites. -/
inductive Val where
  | vnull : Val
  | vbool : Bool → Val
  | vnum : Int → Val
  | vstr : String → Val
  | vfun : Val
deriving DecidableEq

/-- JavaScript truthiness of a Val, as used by the guard if (result) in
Saga.stepFinished: null, false, 0 and the empty string are falsy;
functions (and composites, not modelled) are always truthy. -/
def truthy : Val → Bool
  | .vnull => false
  | .vbool b => b
  | .vnum n => decide (n ≠ 0)
  | .vstr s => decide (s ≠ "")
  | .vfun => true

/-- Whether JSON.parse (JSON.stringify v) throws: it does exactly when v is
a top-level function (stringify returns undefined and parsing that string
fails); every other Val stringifies to valid JSON. -/
def stringifyRoundtripFails : Val → Bool
  | .vfun => true
  | _ => false

/-- A Val is JSON-encodable when the stringify-parse round trip used by
Saga.stepFinished succeeds on it. -/
def jsonEncodable (v : Val) : Bool := !stringifyRoundtripFails v

/-- Step statuses, from the SagaStepStatus enum in saga-step.ts. -/
inductive SagaStepStatus where
  | StepUninit : SagaStepStatus
  | Created : SagaStepStatus
  | WaitingForCompensation : SagaStepStatus
  | Queued : SagaStepStatus
  | Running : SagaStepStatus
  | Finished : SagaStepStatus
  | Failed : SagaStepStatus
  | RolledBack : SagaStepStatus
deriving DecidableEq

/-- Saga statuses, from the SagaStatus enum in saga.ts. -/
inductive SagaStatus where
  | SagaUninit : SagaStatus
  | Created : SagaStatus
  | Running : SagaStatus
  | Finished : SagaStatus
  | Failed : SagaStatus
deriving DecidableEq

/-- A persisted step record (interface ISagaStep in saga-step.ts). Every
field is optional because records are JSON objects built by shallow merge:
a field is none when the stored object lacks the key (JSON serialization
drops undefined-valued keys, so absent and undefined coincide). -/
structure ISagaStep where
  id : Option String := none
  args : Option (List Val) := none
  dependsOn : Option (List String) := none
  workerName : Option String := none
  status : Option SagaStepStatus := none
  compensatorId : Option String := none
  result : Option Val := none
  dependencyArgs : Option (List (Option Val)) := none
deriving DecidableEq

/-- The record with no fields: what a shallow merge over a missing record
starts from. -/
def emptyStep : ISagaStep := {}

/-- The step table of one saga: the hash saga_step_sagaId of the store,
as an insertion-ordered association list from step id to record. -/
abbrev StepTable := List (String × ISagaStep)

/-- Fetch the record stored under a key (client.get). -/
def getStep : StepTable → String → Option ISagaStep
  | [], _ => none
  | (k, r) :: t, j => if k = j then some r else getStep t j

/-- Store a record under a key (client.set): replaces in place, appends a
new key at the end, matching JS Map insertion-order semantics. -/
def putStep : StepTable → String → ISagaStep → StepTable
  | [], j, r => [(j, r)]
  | (k, x) :: t, j, r => if k = j then (j, r) :: t else (k, x) :: putStep t j r

/-- The update helper of helpers/db.ts applied to a step table: read the
current record (possibly missing) and store the shallow merge of the patch
over it. The patch is given as a function from the merge base. -/
def updStep (t : StepTable) (j : String) (g : ISagaStep → ISagaStep) : StepTable :=
  putStep t j (g ((getStep t j).getD emptyStep))

/-- The persisted state of one saga: the saga record status (the saga row
of the saga table) plus its step table. -/
structure SagaState where
  sagaStatus : SagaStatus
  steps : StepTable
deriving DecidableEq

/-- Result of an embedded asynchronous method: a normal return, or a
thrown error carrying the store state at the moment of the throw. -/
inductive DbResult where
  | ok : SagaState → DbResult
  | err : String → SagaState → DbResult
deriving DecidableEq

/-- The store state a result leaves behind, error or not. -/
def DbResult.state : DbResult → SagaState
  | .ok s => s
  | .err _ s => s

/-! ### The record layer (src/lib/src/helpers/db.ts)

The checked-in record layer allocates ids with the uuid library rather
than a counter, and updates records by shallow merge over the current
value (creating the record from the patch alone when it is missing).
Generic records of a data table are association lists from field name to
value; the meta table, which this version of create never touches, maps a
table name to a lastId counter. -/

/-- A generic stored JSON record: field name to value, in key order. -/
abbrev JRec := List (String × Val)

/-- Membership of a field name among the keys of a record. -/
def hasKey (r : JRec) (k : String) : Bool := r.any (fun kv => kv.1 = k)

/-- Lookup of a field in a record. -/
def getField : JRec → String → Option Val
  | [], _ => none
  | (k, v) :: t, j => if k = j then some v else getField t j

/-- JavaScript shallow spread merge of patch over old: keys of old keep
their position, values overridden by the patch where present; patch-only
keys follow in patch order. -/
def mergeJRec (old patch : JRec) : JRec :=
  old.map (fun kv => (kv.1, (getField patch kv.1).getD kv.2)) ++
    patch.filter (fun kv => !hasKey old kv.1)

/-- One data table plus the meta table of per-table counters. -/
structure DbState where
  meta : List (String × Int)
  recs : List (String × JRec)
deriving DecidableEq

/-- Lookup in the data table. -/
def getRec : List (String × JRec) → String → Option JRec
  | [], _ => none
  | (k, v) :: t, j => if k = j then some v else getRec t j

/-- Store in the data table, replacing in place. -/
def putRec : List (String × JRec) → String → JRec → List (String × JRec)
  | [], j, r => [(j, r)]
  | (k, x) :: t, j, r => if k = j then (j, r) :: t else (k, x) :: putRec t j r

namespace db

/-- create of helpers/db.ts: the id is the value returned by the uuid
library (passed in as generatedId), the stored tuple is the spread of the
supplied values over the id field, and the function returns the stored
tuple. The meta table is not consulted or written. -/
def create (generatedId : String) (d : DbState) (values : JRec) : JRec × DbState :=
  let newValues := mergeJRec [("id", Val.vstr generatedId)] values
  (newValues, { d with recs := putRec d.recs generatedId newValues })

/-- update of helpers/db.ts: read the current record and store the
shallow merge of the patch over it; a missing record merges over the
spread of undefined, that is over the empty record. -/
def update (d : DbState) (id : String) (values : JRec) : DbState :=
  let oldValues := getRec d.recs id
  { d with recs := putRec d.recs id (mergeJRec (oldValues.getD []) values) }

end db

/-! ### The step entity (src/lib/src/entities/saga-step.ts) -/

/-- Error thrown by enqueueStep when a dependency is not in a satisfied
state (saga-step.ts line 118). -/
def invariantViolationMsg : String :=
  "Unexpected error: Enqueueing saga step with an unfinished dependency"

/-- The TypeError raised when the status of an undefined dependency record
is read inside the find callback of enqueueStep. -/
def depUndefinedMsg : String :=
  "TypeError: cannot read status of undefined"

/-- The TypeError raised when destructuring or instantiating from a
record that the store did not contain. -/
def recordUndefinedMsg : String :=
  "TypeError: cannot read property of undefined"

/-- The find over dependencySteps in enqueueStep: scanning in order, an
undefined element raises a TypeError when the callback reads its status;
otherwise the first dependency whose status is neither Finished nor
RolledBack is returned. -/
def findErrorDep : List (Option ISagaStep) → Sum String (Option ISagaStep)
  | [] => Sum.inr none
  | none :: _ => Sum.inl depUndefinedMsg
  | some d :: rest =>
    if d.status ≠ some SagaStepStatus.Finished ∧ d.status ≠ some SagaStepStatus.RolledBack
    then Sum.inr (some d) else findErrorDep rest

/-- SagaStep.enqueueStep, called with the entity id (this.id, which the
instantiation copied from the id field of the fetched record): re-reads
the record, loads the dependency records positionally when dependsOn is a
nonempty list, throws if one is missing or unsatisfied, and otherwise
stores dependencyArgs (the results of the dependencies in order) together
with status Queued by a shallow merge over the current record. -/
def enqueueStep (eid : String) (s : SagaState) : DbResult :=
  match getStep s.steps eid with
  | none => .err recordUndefinedMsg s
  | some r =>
    let ds : List String :=
      match r.dependsOn with
      | some l => if l.length > 0 then l else []
      | none => []
    let dependencySteps := ds.map (getStep s.steps)
    match findErrorDep dependencySteps with
    | .inl msg => .err msg s
    | .inr (some _) => .err invariantViolationMsg s
    | .inr none =>
      .ok { s with
              steps := updStep s.steps eid (fun cur =>
                { cur with
                    dependencyArgs := some (dependencySteps.map (fun d => d.bind ISagaStep.result)),
                    status := some SagaStepStatus.Queued }) }

/-- SagaStep.finished: store result (replacing any previous value, even
by undefined) and status Finished by shallow merge at the entity id. -/
def finishedStep (eid : String) (result : Option Val) (s : SagaState) : SagaState :=
  { s with
      steps := updStep s.steps eid (fun cur =>
        { cur with result := result, status := some SagaStepStatus.Finished }) }

/-- SagaStep.fail: store status Failed by shallow merge at the entity id. -/
def failStep (eid : String) (s : SagaState) : SagaState :=
  { s with
      steps := updStep s.steps eid (fun cur =>
        { cur with status := some SagaStepStatus.Failed }) }

/-- SagaStep.rollback: read compensatorId from the current record, store
status RolledBack, and when a compensator is referenced, load its record
(a missing record raises a TypeError at instantiation, a record without
an id field fails the id guard of enqueueStep) and enqueue it. -/
def rollbackStep (eid : String) (s : SagaState) : DbResult :=
  match getStep s.steps eid with
  | none => .err recordUndefinedMsg s
  | some r =>
    let s1 : SagaState :=
      { s with
          steps := updStep s.steps eid (fun cur =>
            { cur with status := some SagaStepStatus.RolledBack }) }
    match r.compensatorId with
    | none => .ok s1
    | some cid =>
      match getStep s1.steps cid with
      | none => .err recordUndefinedMsg s1
      | some crec =>
        match crec.id with
        | none => .err "Enqueueing saga step for an uninitialized step" s1
        | some ceid => enqueueStep ceid s1

/-! ### The saga entity (src/lib/src/entities/saga.ts) -/

/-- A freshly created step record as stored by SagaStep.createFromSaga via
db create: the id field, the given status (Created by default, overridden
to WaitingForCompensation for compensators), args, dependsOn and
workerName; no compensatorId, result or dependencyArgs yet. -/
def mkNewStep (newId workerName : String) (args : List Val) (deps : List String)
    (st : SagaStepStatus) : ISagaStep :=
  { id := some newId, args := some args, dependsOn := some deps,
    workerName := some workerName, status := some st }

/-- Saga.addStep: creates a step record in status Created. The fresh id
produced by the uuid library inside db create is passed in as newId.
No validation of the dependsOn ids is performed. -/
def addStep (workerName : String) (args : List Val) (deps : List String)
    (newId : String) (s : SagaState) : SagaState :=
  { s with steps := putStep s.steps newId (mkNewStep newId workerName args deps SagaStepStatus.Created) }

/-- SagaStep.compensateWith: creates a compensator record in status
WaitingForCompensation depending exactly on the compensated step, then
patches compensatorId into the compensated record by shallow merge. -/
def compensateWith (parentId workerName : String) (args : List Val)
    (newId : String) (s : SagaState) : SagaState :=
  let comp : ISagaStep :=
    mkNewStep newId workerName args [parentId] SagaStepStatus.WaitingForCompensation
  let s1 : SagaState := { s with steps := putStep s.steps newId comp }
  { s1 with steps := updStep s1.steps parentId (fun cur => { cur with compensatorId := some newId }) }

/-- Sequential embedding of Promise.all over per-step promises created by
map: every action runs (a rejection does not stop its siblings), and the
first rejection becomes the awaited error. The actions act on disjoint
records under the well-formedness hypotheses of the theorems below, so
the sequential order is immaterial there. Each list element is the id
field of a captured record; instantiating from a record without an id
leaves the entity uninitialized and the id guard of the action throws. -/
def runSeq (f : Option String → SagaState → DbResult) : List (Option String) → SagaState → DbResult
  | [], s => .ok s
  | oid :: rest, s =>
    match f oid s with
    | .ok s1 => runSeq f rest s1
    | .err m s1 =>
      match runSeq f rest s1 with
      | .ok s2 => .err m s2
      | .err _ s2 => .err m s2

/-- The action Saga.tick maps over stepsToExecute: the id guard of
Saga.enqueueStep, then SagaStep.enqueueStep. -/
def enqueueAction (oid : Option String) (s : SagaState) : DbResult :=
  match oid with
  | none => .err "Enqueueing saga step for an uninitialized saga or step" s
  | some eid => enqueueStep eid s

/-- The action Saga.stepFailed maps over stepsToRollback: instantiation
from the captured values, then SagaStep.rollback. -/
def rollbackAction (oid : Option String) (s : SagaState) : DbResult :=
  match oid with
  | none => .err "Rolling back saga step for an uninitialized step" s
  | some eid => rollbackStep eid s

/-- The currDependentSteps list of Saga.tick for one unqueued step: the
steps of the saga whose id occurs in the dependsOn list of the step. -/
def dependentsOf (allSteps : List ISagaStep) (u : ISagaStep) : List ISagaStep :=
  allSteps.filter (fun st =>
    match st.id with
    | some i => (u.dependsOn.getD []).contains i
    | none => false)

/-- The readiness test of Saga.tick for one unqueued step: ready when its
collected dependent list is empty, or when no collected step has a status
other than Finished. -/
def isReady (allSteps : List ISagaStep) (u : ISagaStep) : Bool :=
  if (dependentsOf allSteps u).isEmpty then true
  else ((dependentsOf allSteps u).find? (fun st =>
    decide (st.status ≠ some SagaStepStatus.Finished))).isNone

/-- The step records of the saga in insertion order, as enumerated by
Saga.getAllSteps (getIds followed by getMultiple over the same table). -/
def allRecs (s : SagaState) : List ISagaStep := s.steps.map Prod.snd

/-- The unqueued steps of Saga.tick: those in status Created. -/
def unqueuedOf (s : SagaState) : List ISagaStep :=
  (allRecs s).filter (fun st => decide (st.status = some SagaStepStatus.Created))

/-- The stepsToExecute list of Saga.tick: the unqueued steps that pass
the readiness test. -/
def readyOf (s : SagaState) : List ISagaStep :=
  (unqueuedOf s).filter (isReady (allRecs s))

/-- Saga.tick: return unless the saga is Running; when no step is in
status Created, mark the saga Finished and return; otherwise enqueue
every ready unqueued step. -/
def tick (s : SagaState) : DbResult :=
  if s.sagaStatus ≠ SagaStatus.Running then .ok s
  else
    if (unqueuedOf s).length = 0 then
      .ok { s with sagaStatus := SagaStatus.Finished }
    else
      runSeq enqueueAction ((readyOf s).map ISagaStep.id) s

/-- Saga.start: mark the saga Running, then tick. -/
def start (s : SagaState) : DbResult :=
  tick { s with sagaStatus := SagaStatus.Running }

/-- The guard of Saga.stepFinished on the supplied result: when the value
is truthy, the stringify-parse round trip must succeed. -/
def encodingGuardFails (result : Option Val) : Bool :=
  match result with
  | some v => truthy v && stringifyRoundtripFails v
  | none => false

/-- The error thrown by the encoding guard of Saga.stepFinished. -/
def encodingErrorMsg : String :=
  "Error in stepFinished: result must be JSON encodable."

/-- Saga.stepFinished: validate the result, load the step record (a
missing record raises a TypeError at instantiation, a record without an
id field fails the id guard of SagaStep.finished), mark the step
Finished with the result, then tick. -/
def stepFinished (stepId : String) (result : Option Val) (s : SagaState) : DbResult :=
  if encodingGuardFails result then .err encodingErrorMsg s
  else
    match getStep s.steps stepId with
    | none => .err recordUndefinedMsg s
    | some r =>
      match r.id with
      | none => .err "Finishing saga step for an uninitialized step" s
      | some eid => tick (finishedStep eid result s)

/-- Saga.stepFailed: mark the saga Failed first; enumerate the steps and
keep those whose status is Finished; load and fail the named step; then
roll back every captured Finished step (each rollback may enqueue a
compensator). -/
def stepFailed (stepId : String) (s : SagaState) : DbResult :=
  let s1 : SagaState := { s with sagaStatus := SagaStatus.Failed }
  let stepsToRollback :=
    (allRecs s1).filter (fun st => decide (st.status = some SagaStepStatus.Finished))
  match getStep s1.steps stepId with
  | none => .err recordUndefinedMsg s1
  | some r =>
    match r.id with
    | none => .err "Failing saga step for an uninitialized step" s1
    | some eid => runSeq rollbackAction (stepsToRollback.map ISagaStep.id) (failStep eid s1)

/-! ### The dispatcher (src/lib/src/queue-manager.ts) -/

/-- The default of the failSagaOnError option of the QueueManager
constructor. -/
def defaultFailSagaOnError : Bool := true

/-- QueueManager.runStep on the values of a step read by the dispatcher
tick: resolve the worker by name in the registry; when it is missing,
either fail the step through the saga (failSagaOnError) or leave every
record untouched; when it exists, mark the step Running before invoking
the worker callback (the invocation itself mutates no record). -/
def runStep (workers : List String) (failSagaOnError : Bool)
    (stepVals : ISagaStep) (s : SagaState) : DbResult :=
  match stepVals.id with
  | none => .err "Attempting to run a step that is not initialized" s
  | some stepId =>
    let known :=
      match stepVals.workerName with
      | some wn => workers.contains wn
      | none => false
    if known then
      .ok { s with
              steps := updStep s.steps stepId (fun cur =>
                { cur with status := some SagaStepStatus.Running }) }
    else
      if failSagaOnError then stepFailed stepId s else .ok s

/-- One dispatch decision of QueueManager.tick for a stored step: skip
records without an id and steps not in status Queued; otherwise run the
step. -/
def dispatch (workers : List String) (failSagaOnError : Bool)
    (stepId : String) (s : SagaState) : DbResult :=
  match getStep s.steps stepId with
  | none => .ok s
  | some r =>
    if r.id.isSome ∧ r.status = some SagaStepStatus.Queued
    then runStep workers failSagaOnError r s
    else .ok s

/-! ### The transition system over one saga

Each operation is one public entry point of the engine acting on the
persisted state of one saga: the saga entity methods, and one dispatch
decision of the queue manager. Fresh uuids and the in-memory worker
registry are inputs of the operation. -/

/-- The operations that mutate the persisted state of a saga. -/
inductive Op where
  | addStep : String → List Val → List String → String → Op
  | compensateWith : String → String → List Val → String → Op
  | start : Op
  | stepFinished : String → Option Val → Op
  | stepFailed : String → Op
  | dispatch : List String → Bool → String → Op

/-- Apply one operation. -/
def applyOp : Op → SagaState → DbResult
  | .addStep wn args deps newId, s => .ok (addStep wn args deps newId s)
  | .compensateWith p wn args newId, s => .ok (compensateWith p wn args newId s)
  | .start, s => start s
  | .stepFinished j r, s => stepFinished j r s
  | .stepFailed j, s => stepFailed j s
  | .dispatch ws ff j, s => dispatch ws ff j s

/-- The persisted state just after Saga.create. -/
def initialSaga : SagaState := { sagaStatus := SagaStatus.Created, steps := [] }

/-- The states reachable from a fresh saga through the public operations;
an operation that throws still leaves its partial writes behind. -/
inductive Reachable : SagaState → Prop where
  | init : Reachable initialSaga
  | next : ∀ (s : SagaState) (op : Op), Reachable s → Reachable (applyOp op s).state

/-- A dependency record is satisfied when its status is Finished or
RolledBack (the test of the find callback in enqueueStep, negated). -/
def depSatisfied (rd : ISagaStep) : Prop :=
  rd.status = some SagaStepStatus.Finished ∨ rd.status = some SagaStepStatus.RolledBack

instance (rd : ISagaStep) : Decidable (depSatisfied rd) := by
  unfold depSatisfied
  infer_instance

/-- The hypotheses under which the rollback cascade of Saga.stepFailed is
well behaved at a state: the keys to roll back are distinct; each has a
record carrying its own key as id; and a stored compensatorId points to
an existing record, outside the cascade, distinct from its step, holding
its own id, depending exactly on its step, and referenced by no other
step of the cascade. All of these hold for tables built through addStep
and compensateWith. -/
def RollbackPre (t : SagaState) (R : List String) : Prop :=
  R.Nodup ∧
  ∀ j ∈ R, ∃ rj, getStep t.steps j = some rj ∧ rj.id = some j ∧
    (rj.compensatorId = none ∨
      ∃ cid rc, rj.compensatorId = some cid ∧ cid ∉ R ∧ cid ≠ j ∧
        getStep t.steps cid = some rc ∧ rc.id = some cid ∧ rc.dependsOn = some [j] ∧
        (∀ j2 ∈ R, j2 ≠ j → ∀ rj2, getStep t.steps j2 = some rj2 →
          rj2.compensatorId ≠ some cid))

/-- The keys of the steps whose status is Finished, in table order: the
steps Saga.stepFailed captures for rollback. -/
def finishedKeys (s : SagaState) : List String :=
  (s.steps.filter (fun p => decide (p.2.status = some SagaStepStatus.Finished))).map Prod.fst

/-! ### Concrete fixture states used by witnesses and counterexamples -/

/-- Fixture for C4, success case: a step depending on a Finished and a
RolledBack step. -/
def fixC4A : SagaState :=
  { sagaStatus := .Running,
    steps := [("1", { id := some "1", status := some .Finished,
                      result := some (.vnum 10) }),
              ("2", { id := some "2", status := some .RolledBack,
                      result := some (.vnum 20) }),
              ("3", { id := some "3", status := some .Created,
                      dependsOn := some ["1", "2"] })] }

/-- Fixture for C4: the expected store after enqueueing step 3 of fixC4A. -/
def fixC4Apost : SagaState :=
  { sagaStatus := .Running,
    steps := [("1", { id := some "1", status := some .Finished,
                      result := some (.vnum 10) }),
              ("2", { id := some "2", status := some .RolledBack,
                      result := some (.vnum 20) }),
              ("3", { id := some "3", status := some .Queued,
                      dependsOn := some ["1", "2"],
                      dependencyArgs := some [some (.vnum 10), some (.vnum 20)] })] }

/-- Fixture for C4, failure case: a step depending on a Running step. -/
def fixC4B : SagaState :=
  { sagaStatus := .Running,
    steps := [("1", { id := some "1", status := some .Running }),
              ("2", { id := some "2", status := some .Created,
                      dependsOn := some ["1"] })] }

/-- Fixture for C2 counterexample: a saga whose only step is Finished. -/
def fixC2rec : ISagaStep :=
  { id := some "1", status := some .Finished, result := some (.vnum 7) }

/-- Fixture for C2 counterexample: the saga holding fixC2rec. -/
def fixC2 : SagaState :=
  { sagaStatus := .Running, steps := [("1", fixC2rec)] }

/-- Fixture for C2 counterexample: the store stepFailed leaves behind. -/
def fixC2post : SagaState :=
  { sagaStatus := .Failed,
    steps := [("1", { id := some "1", status := some .RolledBack, result := some (.vnum 7) })] }

/-- Fixture for the C2 witness: a Finished step with a compensator. -/
def fixC2w1 : ISagaStep :=
  { id := some "1", status := some .Finished, compensatorId := some "3",
    result := some (.vstr "res") }

/-- Fixture for the C2 witness: the Running sibling that fails. -/
def fixC2w2 : ISagaStep :=
  { id := some "2", status := some .Running }

/-- Fixture for the C2 witness: the waiting compensator of fixC2w1. -/
def fixC2w3 : ISagaStep :=
  { id := some "3", dependsOn := some ["1"], status := some .WaitingForCompensation }

/-- Fixture for the C2 witness: the saga holding the three steps. -/
def fixC2w : SagaState :=
  { sagaStatus := .Running,
    steps := [("1", fixC2w1), ("2", fixC2w2), ("3", fixC2w3)] }

/-- Fixture for C6: a Queued step naming an unregistered worker. -/
def fixC6a : ISagaStep :=
  { id := some "1", status := some .Queued, workerName := some "ghost" }

/-- Fixture for C6: a Finished step of the same saga. -/
def fixC6b : ISagaStep :=
  { id := some "2", status := some .Finished, workerName := some "w",
    result := some (.vnum 1) }

/-- Fixture for C6: the saga holding fixC6a and fixC6b. -/
def fixC6 : SagaState :=
  { sagaStatus := .Running, steps := [("1", fixC6a), ("2", fixC6b)] }

/-- Fixture for C3: a Finished step with an attached compensator. -/
def fixC3parent : ISagaStep :=
  { id := some "1", args := some [], dependsOn := some [],
    workerName := some "w", status := some .Finished,
    compensatorId := some "2", result := some (.vstr "res") }

/-- Fixture for C3: the compensator of fixC3parent, waiting. -/
def fixC3comp : ISagaStep :=
  { id := some "2", args := some [], dependsOn := some ["1"],
    workerName := some "undo", status := some .WaitingForCompensation }

/-- Fixture for C3: a failed saga holding fixC3parent and fixC3comp. -/
def fixC3 : SagaState :=
  { sagaStatus := .Failed, steps := [("1", fixC3parent), ("2", fixC3comp)] }

/-- Fixture for C3: a Finished step without a compensator. -/
def fixC3bRec : ISagaStep :=
  { id := some "1", args := some [], dependsOn := some [],
    workerName := some "w", status := some .Finished, result := some (.vnum 3) }

/-- Fixture for C3: a failed saga holding only fixC3bRec. -/
def fixC3b : SagaState :=
  { sagaStatus := .Failed, steps := [("1", fixC3bRec)] }

/-- Fixture for the C8 witness: a Running step. -/
def fixC8rec : ISagaStep :=
  { id := some "1", status := some .Running, workerName := some "w" }

/-- Fixture for the C8 witness: a saga holding fixC8rec; its saga record
is still Created so the trailing tick returns at once. -/
def fixC8 : SagaState :=
  { sagaStatus := .Created, steps := [("1", fixC8rec)] }

/-- C1 and C5 trace: one step added to a fresh saga. -/
def fixC1s1 : SagaState := (applyOp (.addStep "w" [] [] "1") initialSaga).state

/-- C1 and C5 trace: a second independent step added. -/
def fixC1s2 : SagaState := (applyOp (.addStep "w" [] [] "2") fixC1s1).state

/-- C1 and C5 trace: the saga started; both steps are now Queued. -/
def fixC1s3 : SagaState := (applyOp Op.start fixC1s2).state

/-- C1 trace: step 1 finishes while step 2 is still Queued; the tick
inside stepFinished marks the saga Finished. -/
def fixC1bad : SagaState := (applyOp (.stepFinished "1" none) fixC1s3).state

/-- Fixture for the C1 witness: a Finished step. -/
def fixC1wrec : ISagaStep := { id := some "1", status := some .Finished }

/-- Fixture for the C1 witness: an unstarted saga holding fixC1wrec. -/
def fixC1w : SagaState := { sagaStatus := .Created, steps := [("1", fixC1wrec)] }

/-- C5 trace: the first queued step is dispatched to its worker. -/
def fixC5s4 : SagaState := (applyOp (.dispatch ["w"] true "1") fixC1s3).state

/-- C5 trace: the second queued step is dispatched as well. -/
def fixC5s5 : SagaState := (applyOp (.dispatch ["w"] true "2") fixC5s4).state

/-- C5 trace: step 1 fails; the saga is Failed while step 2 still runs. -/
def fixC5failed : SagaState := (applyOp (.stepFailed "1") fixC5s5).state

/-- C5 trace: the worker of step 2 reports success after the failure, and
the step still transitions to Finished. -/
def fixC5after : SagaState :=
  (applyOp (.stepFinished "2" (some (.vstr "late"))) fixC5failed).state

/-- Fixture for the C5 witness: a running saga with one queued step. -/
def fixC5w : SagaState :=
  { sagaStatus := .Running, steps := [("1", { id := some "1", status := some .Queued })] }

/-- Fixture for C10: one Created step whose only dependency id matches no
record of the table. -/
def fixC10rec : ISagaStep :=
  { id := some "1", args := some [], dependsOn := some ["99"],
    workerName := some "w", status := some .Created }

/-- Fixture for C10: the saga holding fixC10rec. -/
def fixC10 : SagaState :=
  { sagaStatus := .Running, steps := [("1", fixC10rec)] }

/-! ### Basic lemmas about the step table -/

@[simp]
theorem getStep_put_same (t : StepTable) (j : String) (r : ISagaStep) :
    getStep (putStep t j r) j = some r := by
  induction t with
  | nil => simp [putStep, getStep]
  | cons p t ih =>
    obtain ⟨k, x⟩ := p
    by_cases h : k = j
    · simp [putStep, getStep, h]
    · simp [putStep, getStep, h, ih]

theorem getStep_put_other (t : StepTable) (j k : String) (r : ISagaStep) (h : k ≠ j) :
    getStep (putStep t j r) k = getStep t k := by
  induction t with
  | nil => simp [putStep, getStep, Ne.symm h]
  | cons p t ih =>
    obtain ⟨k0, x⟩ := p
    by_cases h0 : k0 = j
    · subst h0
      simp [putStep, getStep, Ne.symm h]
    · by_cases h1 : k0 = k
      · simp [putStep, getStep, h0, h1, h]
      · simp [putStep, getStep, h0, h1, ih]

theorem getStep_mem {t : StepTable} {j : String} {r : ISagaStep}
    (h : getStep t j = some r) : (j, r) ∈ t := by
  induction t with
  | nil => simp [getStep] at h
  | cons p t ih =>
    obtain ⟨k, x⟩ := p
    by_cases hk : k = j
    · subst hk
      simp [getStep] at h
      simp [h]
    · simp [getStep, hk] at h
      exact List.mem_cons_of_mem _ (ih h)

theorem getStep_isSome_of_mem {t : StepTable} {j : String} {r : ISagaStep}
    (h : (j, r) ∈ t) : (getStep t j).isSome := by
  induction t with
  | nil => simp at h
  | cons p t ih =>
    obtain ⟨k, x⟩ := p
    rcases List.mem_cons.mp h with h1 | h1
    · cases h1
      simp [getStep]
    · by_cases hk : k = j
      · simp [getStep, hk]
      · simpa [getStep, hk] using ih h1

theorem mem_getStep_of_nodup {t : StepTable} (hnd : (t.map Prod.fst).Nodup)
    {j : String} {r : ISagaStep} (h : (j, r) ∈ t) : getStep t j = some r := by
  induction t with
  | nil => simp at h
  | cons p t ih =>
    obtain ⟨k, x⟩ := p
    simp only [List.map_cons, List.nodup_cons] at hnd
    rcases List.mem_cons.mp h with h1 | h1
    · cases h1
      simp [getStep]
    · have hk : k ≠ j := by
        intro hkj
        subst hkj
        exact hnd.1 (List.mem_map.mpr ⟨(k, r), h1, rfl⟩)
      simpa [getStep, hk] using ih hnd.2 h1

theorem getStep_mem_snd {t : StepTable} {j : String} {r : ISagaStep}
    (h : getStep t j = some r) : r ∈ t.map Prod.snd :=
  List.mem_map.mpr ⟨(j, r), getStep_mem h, rfl⟩

/-! ### Lemmas about the record layer -/

theorem getRec_put_same (t : List (String × JRec)) (j : String) (r : JRec) :
    getRec (putRec t j r) j = some r := by
  induction t with
  | nil => simp [putRec, getRec]
  | cons p t ih =>
    obtain ⟨k, x⟩ := p
    by_cases h : k = j
    · simp [putRec, getRec, h]
    · simp [putRec, getRec, h, ih]

theorem getRec_put_other (t : List (String × JRec)) (j k : String) (r : JRec) (h : k ≠ j) :
    getRec (putRec t j r) k = getRec t k := by
  induction t with
  | nil => simp [putRec, getRec, Ne.symm h]
  | cons p t ih =>
    obtain ⟨k0, x⟩ := p
    by_cases h0 : k0 = j
    · subst h0
      simp [putRec, getRec, Ne.symm h]
    · by_cases h1 : k0 = k
      · simp [putRec, getRec, h0, h1, h]
      · simp [putRec, getRec, h0, h1, ih]

theorem mergeJRec_nil (patch : JRec) : mergeJRec [] patch = patch := by
  induction patch with
  | nil => rfl
  | cons kv t ih => simp [mergeJRec, hasKey]

/-! ### Lemmas about enqueueStep -/

theorem updStep_known {t : StepTable} {j : String} {r : ISagaStep}
    (h : getStep t j = some r) (g : ISagaStep → ISagaStep) :
    updStep t j g = putStep t j (g r) := by
  simp [updStep, h]

theorem findErrorDep_none {dl : List (Option ISagaStep)}
    (h : ∀ x ∈ dl, ∃ rd, x = some rd ∧ depSatisfied rd) :
    findErrorDep dl = Sum.inr none := by
  induction dl with
  | nil => rfl
  | cons x rest ih =>
    obtain ⟨rd, hx, hsat⟩ := h x (List.mem_cons_self x rest)
    subst hx
    have hcond : ¬(rd.status ≠ some SagaStepStatus.Finished ∧
        rd.status ≠ some SagaStepStatus.RolledBack) := by
      rcases hsat with h1 | h1 <;> simp [h1]
    simp only [findErrorDep, if_neg hcond]
    exact ih (fun y hy => h y (List.mem_cons_of_mem _ hy))

theorem findErrorDep_found {dl : List (Option ISagaStep)}
    (hpres : ∀ x ∈ dl, x.isSome)
    (h : ∃ x ∈ dl, ∃ rd, x = some rd ∧ ¬depSatisfied rd) :
    ∃ d, findErrorDep dl = Sum.inr (some d) := by
  induction dl with
  | nil => simp at h
  | cons x rest ih =>
    have hx : x.isSome := hpres x (List.mem_cons_self x rest)
    obtain ⟨rd, hrd⟩ := Option.isSome_iff_exists.mp hx
    subst hrd
    by_cases hsat : depSatisfied rd
    · have hcond : ¬(rd.status ≠ some SagaStepStatus.Finished ∧
          rd.status ≠ some SagaStepStatus.RolledBack) := by
        rcases hsat with h1 | h1 <;> simp [h1]
      simp only [findErrorDep, if_neg hcond]
      apply ih (fun y hy => hpres y (List.mem_cons_of_mem _ hy))
      obtain ⟨y, hy, rdy, hrdy, hunsat⟩ := h
      rcases List.mem_cons.mp hy with h1 | h1
      · exact absurd (by rw [h1] at hrdy; injection hrdy with hh; exact hh ▸ hsat) hunsat
      · exact ⟨y, h1, rdy, hrdy, hunsat⟩
    · have hcond : rd.status ≠ some SagaStepStatus.Finished ∧
          rd.status ≠ some SagaStepStatus.RolledBack := by
        constructor
        · intro hh
          exact hsat (Or.inl hh)
        · intro hh
          exact hsat (Or.inr hh)
      exact ⟨rd, by simp only [findErrorDep, if_pos hcond]⟩

/-- The dependency id list that enqueueStep ends up using, as a function
of the stored dependsOn field. -/
theorem enqueue_ds_eq (r : ISagaStep) :
    (match r.dependsOn with
      | some l => if l.length > 0 then l else []
      | none => []) = r.dependsOn.getD [] := by
  cases h : r.dependsOn with
  | none => rfl
  | some l =>
    cases l with
    | nil => rfl
    | cons a t => simp

/-! ### Effect of one rollback -/

theorem rollbackStep_none_spec {s : SagaState} {eid : String} {r : ISagaStep}
    (hrec : getStep s.steps eid = some r)
    (hc : r.compensatorId = none) :
    rollbackStep eid s =
      .ok { s with steps := putStep s.steps eid { r with status := some SagaStepStatus.RolledBack } } := by
  simp only [rollbackStep, hrec, updStep_known hrec, hc]

theorem rollbackStep_comp_spec {s : SagaState} {eid : String} {r : ISagaStep}
    {cid : String} {rc : ISagaStep}
    (hrec : getStep s.steps eid = some r)
    (hc : r.compensatorId = some cid)
    (hne : cid ≠ eid)
    (hcrec : getStep s.steps cid = some rc)
    (hcid : rc.id = some cid)
    (hdep : rc.dependsOn = some [eid]) :
    rollbackStep eid s =
      .ok { s with
            steps := putStep
              (putStep s.steps eid { r with status := some SagaStepStatus.RolledBack }) cid
              { rc with dependencyArgs := some [r.result], status := some SagaStepStatus.Queued } } := by
  obtain ⟨rid, rargs, rdeps, rwn, rst, rcomp, rres, rdargs⟩ := r
  obtain ⟨cI, cargs, cdeps, cwn, cst, ccomp, cres, cdargs⟩ := rc
  simp only at hc hcid hdep
  subst hc
  subst hcid
  subst hdep
  have hcrec1 : getStep (putStep s.steps eid
      ({ id := rid, args := rargs, dependsOn := rdeps, workerName := rwn,
         status := some SagaStepStatus.RolledBack, compensatorId := some cid,
         result := rres, dependencyArgs := rdargs } : ISagaStep)) cid =
      some { id := some cid, args := cargs, dependsOn := some [eid], workerName := cwn,
             status := cst, compensatorId := ccomp, result := cres, dependencyArgs := cdargs } := by
    rw [getStep_put_other _ _ _ _ hne]
    exact hcrec
  have hrb : getStep (putStep s.steps eid
      ({ id := rid, args := rargs, dependsOn := rdeps, workerName := rwn,
         status := some SagaStepStatus.RolledBack, compensatorId := some cid,
         result := rres, dependencyArgs := rdargs } : ISagaStep)) eid =
      some { id := rid, args := rargs, dependsOn := rdeps, workerName := rwn,
             status := some SagaStepStatus.RolledBack, compensatorId := some cid,
             result := rres, dependencyArgs := rdargs } := getStep_put_same _ _ _
  have hfe : findErrorDep [some
      ({ id := rid, args := rargs, dependsOn := rdeps, workerName := rwn,
         status := some SagaStepStatus.RolledBack, compensatorId := some cid,
         result := rres, dependencyArgs := rdargs } : ISagaStep)] = Sum.inr none := by
    apply findErrorDep_none
    intro x hx
    simp only [List.mem_singleton] at hx
    subst hx
    exact ⟨_, rfl, Or.inr rfl⟩
  simp only [rollbackStep, hrec, updStep_known hrec, enqueueStep, hcrec1]
  have hif : (if [eid].length > 0 then [eid] else ([] : List String)) = [eid] := by simp
  rw [hif]
  simp only [List.map_cons, List.map_nil, hrb, hfe]
  rw [updStep_known hcrec1]
  rfl

/-! ### The rollback cascade of stepFailed -/

theorem rollbackMany_spec (R : List String) :
    ∀ (t : SagaState), RollbackPre t R →
    ∃ t2, runSeq rollbackAction (R.map some) t = .ok t2 ∧
      t2.sagaStatus = t.sagaStatus ∧
      (∀ j ∈ R, ∀ rj, getStep t.steps j = some rj →
        getStep t2.steps j = some { rj with status := some SagaStepStatus.RolledBack }) ∧
      (∀ j ∈ R, ∀ rj cid rc, getStep t.steps j = some rj → rj.compensatorId = some cid →
        getStep t.steps cid = some rc →
        getStep t2.steps cid =
          some { rc with dependencyArgs := some [rj.result], status := some SagaStepStatus.Queued }) ∧
      (∀ k, k ∉ R →
        (∀ j ∈ R, ∀ rj, getStep t.steps j = some rj → rj.compensatorId ≠ some k) →
        getStep t2.steps k = getStep t.steps k) := by
  induction R with
  | nil =>
    intro t _
    exact ⟨t, rfl, rfl, by simp, by simp, fun k _ _ => rfl⟩
  | cons j R' ih =>
    intro t h
    obtain ⟨hnd, hpkg⟩ := h
    have hndR' : R'.Nodup := (List.nodup_cons.mp hnd).2
    have hjR' : j ∉ R' := (List.nodup_cons.mp hnd).1
    obtain ⟨rj, hrj, hrjid, hcase⟩ := hpkg j (List.mem_cons_self _ _)
    -- comps of the remaining cascade never point at a key excluded by the package
    have hcompR' : ∀ j2 ∈ R', ∀ rj2, getStep t.steps j2 = some rj2 →
        ∀ c, rj2.compensatorId = some c → c ∉ j :: R' := by
      intro j2 hj2 rj2 hrj2 c hcc2
      obtain ⟨rj2x, hrj2x, _, hc2⟩ := hpkg j2 (List.mem_cons_of_mem _ hj2)
      rw [hrj2x] at hrj2
      injection hrj2 with hrj2e
      subst hrj2e
      rcases hc2 with hn | ⟨cid2, rc2, hccx, hcnotin, _, _, _, _, _⟩
      · rw [hn] at hcc2; cases hcc2
      · rw [hccx] at hcc2
        injection hcc2 with hcc2e
        subst hcc2e
        exact hcnotin
    rcases hcase with hnone | ⟨cid, rc, hcc, hcnotin, hcne, hcrec, hcid, hcdep, huniq⟩
    · -- j has no compensator
      have hstep := rollbackStep_none_spec hrj hnone
      obtain ⟨t1, ht1⟩ : ∃ t1, ({ t with
          steps := putStep t.steps j { rj with status := some SagaStepStatus.RolledBack } } : SagaState) = t1 :=
        ⟨_, rfl⟩
      rw [ht1] at hstep
      have hget_t1 : ∀ k, k ≠ j → getStep t1.steps k = getStep t.steps k := by
        intro k hk
        rw [← ht1]
        exact getStep_put_other _ _ _ _ hk
      have hget_t1j : getStep t1.steps j =
          some { rj with status := some SagaStepStatus.RolledBack } := by
        rw [← ht1]
        exact getStep_put_same _ _ _
      have hsaga1 : t1.sagaStatus = t.sagaStatus := by rw [← ht1]
      have hpre1 : RollbackPre t1 R' := by
        refine ⟨hndR', ?_⟩
        intro j2 hj2
        have hj2ne : j2 ≠ j := fun hh => hjR' (hh ▸ hj2)
        obtain ⟨rj2, hrj2, hid2, hc2⟩ := hpkg j2 (List.mem_cons_of_mem _ hj2)
        refine ⟨rj2, by rw [hget_t1 j2 hj2ne]; exact hrj2, hid2, ?_⟩
        rcases hc2 with hn | ⟨cid2, rc2, hcc2, hcnotin2, hcne2, hcrec2, hcid2, hcdep2, huniq2⟩
        · exact Or.inl hn
        · refine Or.inr ⟨cid2, rc2, hcc2, fun hh => hcnotin2 (List.mem_cons_of_mem _ hh), hcne2, ?_, hcid2, hcdep2, ?_⟩
          · have hcid2nej : cid2 ≠ j := fun hh => hcnotin2 (hh ▸ List.mem_cons_self _ _)
            rw [hget_t1 cid2 hcid2nej]
            exact hcrec2
          · intro j3 hj3 hj3ne rj3 hrj3
            have hj3nej : j3 ≠ j := fun hh => hjR' (hh ▸ hj3)
            rw [hget_t1 j3 hj3nej] at hrj3
            exact huniq2 j3 (List.mem_cons_of_mem _ hj3) hj3ne rj3 hrj3
      obtain ⟨t2, hrun2, hsaga2, hrb2, hcq2, hfr2⟩ := ih t1 hpre1
      have hcompsNotJ : ∀ j2 ∈ R', ∀ rj2, getStep t1.steps j2 = some rj2 →
          rj2.compensatorId ≠ some j := by
        intro j2 hj2 rj2 hrj2 hcc2
        have hj2ne : j2 ≠ j := fun hh => hjR' (hh ▸ hj2)
        rw [hget_t1 j2 hj2ne] at hrj2
        exact hcompR' j2 hj2 rj2 hrj2 j hcc2 (List.mem_cons_self _ _)
      refine ⟨t2, ?_, ?_, ?_, ?_, ?_⟩
      · simp only [List.map_cons, runSeq, rollbackAction, hstep]
        exact hrun2
      · rw [hsaga2, hsaga1]
      · intro j' hj' rj' hrj'
        rcases List.mem_cons.mp hj' with hje | hjm
        · subst hje
          rw [hrj] at hrj'
          injection hrj' with hrj'e
          subst hrj'e
          rw [hfr2 j' hjR' hcompsNotJ, hget_t1j]
        · have hj'ne : j' ≠ j := fun hh => hjR' (hh ▸ hjm)
          exact hrb2 j' hjm rj' (by rw [hget_t1 j' hj'ne]; exact hrj')
      · intro j' hj' rj' cid' rc' hrj' hcc' hcrec'
        rcases List.mem_cons.mp hj' with hje | hjm
        · subst hje
          rw [hrj] at hrj'
          injection hrj' with hrj'e
          subst hrj'e
          rw [hnone] at hcc'
          cases hcc'
        · have hj'ne : j' ≠ j := fun hh => hjR' (hh ▸ hjm)
          have hcid'ne : cid' ≠ j := by
            have := hcompR' j' hjm rj' hrj' cid' hcc'
            exact fun hh => this (hh ▸ List.mem_cons_self _ _)
          refine hcq2 j' hjm rj' cid' rc' ?_ hcc' ?_
          · rw [hget_t1 j' hj'ne]; exact hrj'
          · rw [hget_t1 cid' hcid'ne]; exact hcrec'
      · intro k hk hkcomp
        have hknej : k ≠ j := fun hh => hk (hh ▸ List.mem_cons_self _ _)
        have hknR' : k ∉ R' := fun hh => hk (List.mem_cons_of_mem _ hh)
        have hkcomp1 : ∀ j2 ∈ R', ∀ rj2, getStep t1.steps j2 = some rj2 →
            rj2.compensatorId ≠ some k := by
          intro j2 hj2 rj2 hrj2
          have hj2ne : j2 ≠ j := fun hh => hjR' (hh ▸ hj2)
          rw [hget_t1 j2 hj2ne] at hrj2
          exact hkcomp j2 (List.mem_cons_of_mem _ hj2) rj2 hrj2
        rw [hfr2 k hknR' hkcomp1, hget_t1 k hknej]
    · -- j has the compensator cid with record rc
      have hstep := rollbackStep_comp_spec hrj hcc hcne hcrec hcid hcdep
      have hcnej : cid ≠ j := hcne
      have hcnR' : cid ∉ R' := fun hh => hcnotin (List.mem_cons_of_mem _ hh)
      obtain ⟨t1, ht1⟩ : ∃ t1, ({ t with
          steps := putStep
            (putStep t.steps j { rj with status := some SagaStepStatus.RolledBack }) cid
            { rc with dependencyArgs := some [rj.result],
                      status := some SagaStepStatus.Queued } } : SagaState) = t1 :=
        ⟨_, rfl⟩
      rw [ht1] at hstep
      have hget_t1 : ∀ k, k ≠ j → k ≠ cid → getStep t1.steps k = getStep t.steps k := by
        intro k hk1 hk2
        rw [← ht1]
        simp only
        rw [getStep_put_other _ _ _ _ hk2, getStep_put_other _ _ _ _ hk1]
      have hget_t1j : getStep t1.steps j =
          some { rj with status := some SagaStepStatus.RolledBack } := by
        rw [← ht1]
        simp only
        rw [getStep_put_other _ _ _ _ (Ne.symm hcne)]
        exact getStep_put_same _ _ _
      have hget_t1c : getStep t1.steps cid =
          some { rc with dependencyArgs := some [rj.result],
                         status := some SagaStepStatus.Queued } := by
        rw [← ht1]
        exact getStep_put_same _ _ _
      have hsaga1 : t1.sagaStatus = t.sagaStatus := by rw [← ht1]
      -- compensators of other cascade members differ from cid
      have hothercomp : ∀ j2 ∈ R', ∀ rj2, getStep t.steps j2 = some rj2 →
          ∀ c2, rj2.compensatorId = some c2 → c2 ≠ cid := by
        intro j2 hj2 rj2 hrj2 c2 hcc2 hh
        subst hh
        have hj2ne : j2 ≠ j := fun hh2 => hjR' (hh2 ▸ hj2)
        exact huniq j2 (List.mem_cons_of_mem _ hj2) hj2ne rj2 hrj2 hcc2
      have hpre1 : RollbackPre t1 R' := by
        refine ⟨hndR', ?_⟩
        intro j2 hj2
        have hj2ne : j2 ≠ j := fun hh => hjR' (hh ▸ hj2)
        have hj2nec : j2 ≠ cid := fun hh => hcnR' (hh ▸ hj2)
        obtain ⟨rj2, hrj2, hid2, hc2⟩ := hpkg j2 (List.mem_cons_of_mem _ hj2)
        refine ⟨rj2, by rw [hget_t1 j2 hj2ne hj2nec]; exact hrj2, hid2, ?_⟩
        rcases hc2 with hn | ⟨cid2, rc2, hcc2, hcnotin2, hcne2, hcrec2, hcid2, hcdep2, huniq2⟩
        · exact Or.inl hn
        · have hcid2nej : cid2 ≠ j := fun hh => hcnotin2 (hh ▸ List.mem_cons_self _ _)
          have hcid2nec : cid2 ≠ cid := hothercomp j2 hj2 rj2 hrj2 cid2 hcc2
          refine Or.inr ⟨cid2, rc2, hcc2, fun hh => hcnotin2 (List.mem_cons_of_mem _ hh), hcne2, ?_, hcid2, hcdep2, ?_⟩
          · rw [hget_t1 cid2 hcid2nej hcid2nec]
            exact hcrec2
          · intro j3 hj3 hj3ne rj3 hrj3
            have hj3nej : j3 ≠ j := fun hh => hjR' (hh ▸ hj3)
            have hj3nec : j3 ≠ cid := fun hh => hcnR' (hh ▸ hj3)
            rw [hget_t1 j3 hj3nej hj3nec] at hrj3
            exact huniq2 j3 (List.mem_cons_of_mem _ hj3) hj3ne rj3 hrj3
      obtain ⟨t2, hrun2, hsaga2, hrb2, hcq2, hfr2⟩ := ih t1 hpre1
      have translate : ∀ j2 ∈ R', ∀ rj2, getStep t1.steps j2 = some rj2 →
          getStep t.steps j2 = some rj2 := by
        intro j2 hj2 rj2 hrj2
        have hj2ne : j2 ≠ j := fun hh => hjR' (hh ▸ hj2)
        have hj2nec : j2 ≠ cid := fun hh => hcnR' (hh ▸ hj2)
        rw [hget_t1 j2 hj2ne hj2nec] at hrj2
        exact hrj2
      have hcompsNotJ : ∀ j2 ∈ R', ∀ rj2, getStep t1.steps j2 = some rj2 →
          rj2.compensatorId ≠ some j := by
        intro j2 hj2 rj2 hrj2 hcc2
        exact hcompR' j2 hj2 rj2 (translate j2 hj2 rj2 hrj2) j hcc2 (List.mem_cons_self _ _)
      have hcompsNotC : ∀ j2 ∈ R', ∀ rj2, getStep t1.steps j2 = some rj2 →
          rj2.compensatorId ≠ some cid := by
        intro j2 hj2 rj2 hrj2 hcc2
        exact hothercomp j2 hj2 rj2 (translate j2 hj2 rj2 hrj2) cid hcc2 rfl
      refine ⟨t2, ?_, ?_, ?_, ?_, ?_⟩
      · simp only [List.map_cons, runSeq, rollbackAction, hstep]
        exact hrun2
      · rw [hsaga2, hsaga1]
      · intro j' hj' rj' hrj'
        rcases List.mem_cons.mp hj' with hje | hjm
        · subst hje
          rw [hrj] at hrj'
          injection hrj' with hrj'e
          subst hrj'e
          rw [hfr2 j' hjR' hcompsNotJ, hget_t1j]
        · have hj'ne : j' ≠ j := fun hh => hjR' (hh ▸ hjm)
          have hj'nec : j' ≠ cid := fun hh => hcnR' (hh ▸ hjm)
          exact hrb2 j' hjm rj' (by rw [hget_t1 j' hj'ne hj'nec]; exact hrj')
      · intro j' hj' rj' cid' rc' hrj' hcc' hcrec'
        rcases List.mem_cons.mp hj' with hje | hjm
        · subst hje
          rw [hrj] at hrj'
          injection hrj' with hrj'e
          subst hrj'e
          rw [hcc] at hcc'
          injection hcc' with hcc'e
          rw [← hcc'e] at hcrec' ⊢
          rw [hcrec] at hcrec'
          injection hcrec' with hcrec'e
          rw [← hcrec'e]
          rw [hfr2 cid hcnR' hcompsNotC, hget_t1c]
        · have hj'ne : j' ≠ j := fun hh => hjR' (hh ▸ hjm)
          have hj'nec : j' ≠ cid := fun hh => hcnR' (hh ▸ hjm)
          have hcid'nej : cid' ≠ j := by
            have := hcompR' j' hjm rj' hrj' cid' hcc'
            exact fun hh => this (hh ▸ List.mem_cons_self _ _)
          have hcid'nec : cid' ≠ cid := hothercomp j' hjm rj' hrj' cid' hcc'
          refine hcq2 j' hjm rj' cid' rc' ?_ hcc' ?_
          · rw [hget_t1 j' hj'ne hj'nec]; exact hrj'
          · rw [hget_t1 cid' hcid'nej hcid'nec]; exact hcrec'
      · intro k hk hkcomp
        have hknej : k ≠ j := fun hh => hk (hh ▸ List.mem_cons_self _ _)
        have hknR' : k ∉ R' := fun hh => hk (List.mem_cons_of_mem _ hh)
        have hknec : k ≠ cid := by
          intro hh
          subst hh
          exact hkcomp j (List.mem_cons_self _ _) rj hrj hcc
        have hkcomp1 : ∀ j2 ∈ R', ∀ rj2, getStep t1.steps j2 = some rj2 →
            rj2.compensatorId ≠ some k := by
          intro j2 hj2 rj2 hrj2
          exact hkcomp j2 (List.mem_cons_of_mem _ hj2) rj2 (translate j2 hj2 rj2 hrj2)
        rw [hfr2 k hknR' hkcomp1, hget_t1 k hknej hknec]

/-! ### Characterization of stepFailed -/

theorem filterFinished_map_id (l : StepTable) (hid : ∀ p ∈ l, p.2.id = some p.1) :
    ((l.map Prod.snd).filter
        (fun st => decide (st.status = some SagaStepStatus.Finished))).map ISagaStep.id =
      ((l.filter (fun p => decide (p.2.status = some SagaStepStatus.Finished))).map
        Prod.fst).map some := by
  induction l with
  | nil => rfl
  | cons p l ihl =>
    have hhead : p.2.id = some p.1 := hid p (List.mem_cons_self _ _)
    have htail := ihl (fun q hq => hid q (List.mem_cons_of_mem _ hq))
    by_cases hst : p.2.status = some SagaStepStatus.Finished
    · simp [List.filter_cons, hst, hhead, htail]
    · simp [List.filter_cons, hst, htail]

theorem mem_finishedKeys {s : SagaState} (hnd : (s.steps.map Prod.fst).Nodup)
    {j : String} (hj : j ∈ finishedKeys s) :
    ∃ rj, getStep s.steps j = some rj ∧ rj.status = some SagaStepStatus.Finished := by
  obtain ⟨p, hp, hpj⟩ := List.mem_map.mp hj
  have hmemf := List.mem_filter.mp hp
  have hget : getStep s.steps p.1 = some p.2 := mem_getStep_of_nodup hnd hmemf.1
  refine ⟨p.2, by rw [← hpj]; exact hget, ?_⟩
  have := hmemf.2
  simpa using this

theorem finishedKeys_mem {s : SagaState} {j : String} {rj : ISagaStep}
    (hget : getStep s.steps j = some rj)
    (hst : rj.status = some SagaStepStatus.Finished) :
    j ∈ finishedKeys s := by
  apply List.mem_map.mpr
  exact ⟨(j, rj), List.mem_filter.mpr ⟨getStep_mem hget, by simpa using hst⟩, rfl⟩

theorem finishedKeys_nodup {s : SagaState} (hnd : (s.steps.map Prod.fst).Nodup) :
    (finishedKeys s).Nodup :=
  List.Nodup.sublist (List.Sublist.map Prod.fst (List.filter_sublist _)) hnd

/-- The full effect of Saga.stepFailed under the well-formedness that
addStep and compensateWith maintain: keys are distinct, records carry
their key as id, and each Finished step with a compensatorId points to an
existing waiting compensator depending exactly on it, the named step not
being any of those compensators. The saga is marked Failed; the named
step ends Failed unless it was Finished at enumeration, in which case it
is rolled back like the other Finished steps; every step Finished at
enumeration ends RolledBack and its compensator, if any, ends Queued with
the parent result as sole dependency argument; every other record is
untouched. -/
theorem stepFailed_spec (s : SagaState) (stepId : String) (r0 : ISagaStep)
    (hnd : (s.steps.map Prod.fst).Nodup)
    (hid : ∀ p ∈ s.steps, p.2.id = some p.1)
    (hcomp : ∀ p ∈ s.steps, p.2.status = some SagaStepStatus.Finished →
      ∀ cid, p.2.compensatorId = some cid → cid ≠ p.1 ∧
        ∃ rc, getStep s.steps cid = some rc ∧ rc.id = some cid ∧
          rc.status = some SagaStepStatus.WaitingForCompensation ∧ rc.dependsOn = some [p.1])
    (hrec : getStep s.steps stepId = some r0)
    (hnotc : ∀ p ∈ s.steps, p.2.status = some SagaStepStatus.Finished →
      p.2.compensatorId ≠ some stepId) :
    ∃ s2, stepFailed stepId s = .ok s2 ∧
      s2.sagaStatus = SagaStatus.Failed ∧
      (r0.status = some SagaStepStatus.Finished →
        getStep s2.steps stepId = some { r0 with status := some SagaStepStatus.RolledBack }) ∧
      (r0.status ≠ some SagaStepStatus.Finished →
        getStep s2.steps stepId = some { r0 with status := some SagaStepStatus.Failed }) ∧
      (∀ p ∈ s.steps, p.2.status = some SagaStepStatus.Finished →
        getStep s2.steps p.1 = some { p.2 with status := some SagaStepStatus.RolledBack }) ∧
      (∀ p ∈ s.steps, p.2.status = some SagaStepStatus.Finished →
        ∀ cid rc, p.2.compensatorId = some cid → getStep s.steps cid = some rc →
          getStep s2.steps cid =
            some { rc with dependencyArgs := some [p.2.result],
                           status := some SagaStepStatus.Queued }) ∧
      (∀ k, k ≠ stepId →
        (∀ p ∈ s.steps, p.2.status = some SagaStepStatus.Finished →
          p.1 ≠ k ∧ p.2.compensatorId ≠ some k) →
        getStep s2.steps k = getStep s.steps k) := by
  have hid0 : r0.id = some stepId := hid _ (getStep_mem hrec)
  -- the state after the saga record is failed and the named step is failed
  obtain ⟨sf, hsf⟩ : ∃ sf, ({ s with
      sagaStatus := SagaStatus.Failed,
      steps := putStep s.steps stepId { r0 with status := some SagaStepStatus.Failed } } : SagaState) = sf :=
    ⟨_, rfl⟩
  have hsf_steps_same : ∀ k, k ≠ stepId → getStep sf.steps k = getStep s.steps k := by
    intro k hk
    rw [← hsf]
    exact getStep_put_other _ _ _ _ hk
  have hsf_steps_id : getStep sf.steps stepId = some { r0 with status := some SagaStepStatus.Failed } := by
    rw [← hsf]
    exact getStep_put_same _ _ _
  have hsf_saga : sf.sagaStatus = SagaStatus.Failed := by rw [← hsf]
  -- stepFailed unfolds to the cascade run on sf
  have hrun : stepFailed stepId s =
      runSeq rollbackAction ((finishedKeys s).map some) sf := by
    have hrec1 : getStep ({ s with sagaStatus := SagaStatus.Failed } : SagaState).steps stepId = some r0 := hrec
    simp only [stepFailed, allRecs, hrec1]
    rw [hid0]
    simp only [failStep, updStep_known hrec1]
    rw [filterFinished_map_id s.steps hid, hsf]
    rfl
  -- well-formedness facts transported to sf
  have hfinrec : ∀ j ∈ finishedKeys s,
      ∃ rj, getStep s.steps j = some rj ∧ rj.status = some SagaStepStatus.Finished :=
    fun j hj => mem_finishedKeys hnd hj
  have hcompcid : ∀ j rj cid, getStep s.steps j = some rj →
      rj.status = some SagaStepStatus.Finished → rj.compensatorId = some cid →
      cid ≠ j ∧ ∃ rc, getStep s.steps cid = some rc ∧ rc.id = some cid ∧
        rc.status = some SagaStepStatus.WaitingForCompensation ∧ rc.dependsOn = some [j] := by
    intro j rj cid hget hst hcc
    exact hcomp (j, rj) (getStep_mem hget) hst cid hcc
  have hcid_not_fin : ∀ j rj cid, getStep s.steps j = some rj →
      rj.status = some SagaStepStatus.Finished → rj.compensatorId = some cid →
      cid ∉ finishedKeys s := by
    intro j rj cid hget hst hcc hmem
    obtain ⟨_, rc, hrc, _, hrcst, _⟩ := hcompcid j rj cid hget hst hcc
    obtain ⟨rjc, hrjc, hrjcst⟩ := mem_finishedKeys hnd hmem
    rw [hrc] at hrjc
    injection hrjc with he
    rw [← he] at hrjcst
    rw [hrcst] at hrjcst
    cases hrjcst
  have huniqcomp : ∀ j rj cid, getStep s.steps j = some rj →
      rj.status = some SagaStepStatus.Finished → rj.compensatorId = some cid →
      ∀ j2 rj2, j2 ≠ j → getStep s.steps j2 = some rj2 →
        rj2.status = some SagaStepStatus.Finished → rj2.compensatorId ≠ some cid := by
    intro j rj cid hget hst hcc j2 rj2 hne hget2 hst2 hcc2
    obtain ⟨_, rc, hrc, _, _, hdep⟩ := hcompcid j rj cid hget hst hcc
    obtain ⟨_, rc2, hrc2, _, _, hdep2⟩ := hcompcid j2 rj2 cid hget2 hst2 hcc2
    rw [hrc] at hrc2
    injection hrc2 with he
    rw [← he] at hdep2
    rw [hdep] at hdep2
    injection hdep2 with hl
    injection hl with hj12
    exact hne hj12.symm
  -- records of cascade members at sf
  have hsf_cascade : ∀ j ∈ finishedKeys s, ∃ rj, getStep s.steps j = some rj ∧
      rj.status = some SagaStepStatus.Finished ∧
      ((j = stepId ∧ getStep sf.steps j = some { rj with status := some SagaStepStatus.Failed } ∧ rj = r0) ∨
       (j ≠ stepId ∧ getStep sf.steps j = some rj)) := by
    intro j hj
    obtain ⟨rj, hget, hst⟩ := hfinrec j hj
    by_cases hje : j = stepId
    · subst hje
      rw [hrec] at hget
      injection hget with he
      subst he
      exact ⟨r0, hrec, hst, Or.inl ⟨rfl, hsf_steps_id, rfl⟩⟩
    · exact ⟨rj, hget, hst, Or.inr ⟨hje, by rw [hsf_steps_same j hje]; exact hget⟩⟩
  have hpre : RollbackPre sf (finishedKeys s) := by
    refine ⟨finishedKeys_nodup hnd, ?_⟩
    intro j hj
    obtain ⟨rj, hget, hst, hcases⟩ := hsf_cascade j hj
    -- the record of j at sf and its compensator handling
    have hcompside : ∀ rjf : ISagaStep, getStep sf.steps j = some rjf →
        rjf.compensatorId = rj.compensatorId → rjf.id = some j →
        (rjf.compensatorId = none ∨
          ∃ cid rc, rjf.compensatorId = some cid ∧ cid ∉ finishedKeys s ∧ cid ≠ j ∧
            getStep sf.steps cid = some rc ∧ rc.id = some cid ∧ rc.dependsOn = some [j] ∧
            (∀ j2 ∈ finishedKeys s, j2 ≠ j → ∀ rj2, getStep sf.steps j2 = some rj2 →
              rj2.compensatorId ≠ some cid)) := by
      intro rjf hgetf hccf _
      cases hcc : rj.compensatorId with
      | none => exact Or.inl (by rw [hccf, hcc])
      | some cid =>
        obtain ⟨hcnej, rc, hrc, hrcid, hrcst, hrcdep⟩ := hcompcid j rj cid hget hst hcc
        have hcid_ne_stepId : cid ≠ stepId := by
          intro hh
          subst hh
          exact hnotc (j, rj) (getStep_mem hget) hst (hcc ▸ rfl)
        refine Or.inr ⟨cid, rc, by rw [hccf, hcc], hcid_not_fin j rj cid hget hst hcc, hcnej,
          by rw [hsf_steps_same cid hcid_ne_stepId]; exact hrc, hrcid, hrcdep, ?_⟩
        intro j2 hj2 hj2ne rj2f hrj2f hcc2f
        obtain ⟨rj2, hget2, hst2, hcases2⟩ := hsf_cascade j2 hj2
        have hcompeq : rj2f.compensatorId = rj2.compensatorId := by
          rcases hcases2 with ⟨_, hgf, _⟩ | ⟨_, hgf⟩ <;>
            · rw [hgf] at hrj2f
              injection hrj2f with he
              rw [← he]
        rw [hcompeq] at hcc2f
        exact huniqcomp j rj cid hget hst hcc j2 rj2 hj2ne hget2 hst2 hcc2f
    rcases hcases with ⟨hje, hgetf, hre⟩ | ⟨hje, hgetf⟩
    · subst hre
      refine ⟨{ rj with status := some SagaStepStatus.Failed }, hgetf, ?_, ?_⟩
      · subst hje
        exact hid0
      · exact hcompside _ hgetf rfl (hje ▸ hid0)
    · refine ⟨rj, hgetf, hid _ (getStep_mem hget), ?_⟩
      exact hcompside rj hgetf rfl (hid _ (getStep_mem hget))
  obtain ⟨s2, hrun2, hsaga2, hrb2, hcq2, hfr2⟩ := rollbackMany_spec (finishedKeys s) sf hpre
  refine ⟨s2, by rw [hrun]; exact hrun2, by rw [hsaga2, hsf_saga], ?_, ?_, ?_, ?_, ?_⟩
  · -- named step Finished at enumeration: rolled back
    intro hfin
    have hj : stepId ∈ finishedKeys s := finishedKeys_mem hrec hfin
    have := hrb2 stepId hj { r0 with status := some SagaStepStatus.Failed } hsf_steps_id
    exact this
  · -- named step not Finished: ends Failed
    intro hnfin
    have hnotin : stepId ∉ finishedKeys s := by
      intro hmem
      obtain ⟨rj, hget, hst⟩ := mem_finishedKeys hnd hmem
      rw [hrec] at hget
      injection hget with he
      rw [← he] at hst
      exact hnfin hst
    have hnocomp : ∀ j ∈ finishedKeys s, ∀ rj, getStep sf.steps j = some rj →
        rj.compensatorId ≠ some stepId := by
      intro j hj rj hgetf
      obtain ⟨rjs, hget, hst, hcases⟩ := hsf_cascade j hj
      have hcompeq : rj.compensatorId = rjs.compensatorId := by
        rcases hcases with ⟨_, hgf, _⟩ | ⟨_, hgf⟩ <;>
          · rw [hgf] at hgetf
            injection hgetf with he
            rw [← he]
      rw [hcompeq]
      exact hnotc (j, rjs) (getStep_mem hget) hst
    rw [hfr2 stepId hnotin hnocomp]
    exact hsf_steps_id
  · -- every Finished step ends RolledBack
    intro p hp hst
    have hget : getStep s.steps p.1 = some p.2 := mem_getStep_of_nodup hnd hp
    have hj : p.1 ∈ finishedKeys s := finishedKeys_mem hget hst
    obtain ⟨rj, hgets, hsts, hcases⟩ := hsf_cascade p.1 hj
    rw [hget] at hgets
    injection hgets with he
    subst he
    rcases hcases with ⟨hje, hgetf, hre⟩ | ⟨hje, hgetf⟩
    · have := hrb2 p.1 hj { p.2 with status := some SagaStepStatus.Failed } hgetf
      exact this
    · exact hrb2 p.1 hj p.2 hgetf
  · -- compensators of Finished steps end Queued with the parent result
    intro p hp hst cid rc hcc hrc
    have hget : getStep s.steps p.1 = some p.2 := mem_getStep_of_nodup hnd hp
    have hj : p.1 ∈ finishedKeys s := finishedKeys_mem hget hst
    have hcid_ne_stepId : cid ≠ stepId := by
      intro hh
      subst hh
      exact hnotc p hp hst hcc
    have hrcf : getStep sf.steps cid = some rc := by
      rw [hsf_steps_same cid hcid_ne_stepId]
      exact hrc
    obtain ⟨rj, hgets, hsts, hcases⟩ := hsf_cascade p.1 hj
    rw [hget] at hgets
    injection hgets with he
    subst he
    rcases hcases with ⟨hje, hgetf, hre⟩ | ⟨hje, hgetf⟩
    · have := hcq2 p.1 hj { p.2 with status := some SagaStepStatus.Failed } cid rc hgetf
        (by simpa using hcc) hrcf
      exact this
    · exact hcq2 p.1 hj p.2 cid rc hgetf hcc hrcf
  · -- untouched records
    intro k hk hkfree
    have hnotin : k ∉ finishedKeys s := by
      intro hmem
      obtain ⟨rj, hget, hst⟩ := mem_finishedKeys hnd hmem
      exact (hkfree (k, rj) (getStep_mem hget) hst).1 rfl
    have hnocomp : ∀ j ∈ finishedKeys s, ∀ rj, getStep sf.steps j = some rj →
        rj.compensatorId ≠ some k := by
      intro j hj rj hgetf
      obtain ⟨rjs, hget, hst, hcases⟩ := hsf_cascade j hj
      have hcompeq : rj.compensatorId = rjs.compensatorId := by
        rcases hcases with ⟨_, hgf, _⟩ | ⟨_, hgf⟩ <;>
          · rw [hgf] at hgetf
            injection hgetf with he
            rw [← he]
      rw [hcompeq]
      exact (hkfree (j, rjs) (getStep_mem hget) hst).2
    rw [hfr2 k hnotin hnocomp]
    exact hsf_steps_same k hk

/-! ### Claim C3 -/

/-- C3: rollback on a step whose record exists sets the step to
RolledBack; when no compensatorId is stored, no other record of the store
is touched; when a compensator is attached (an existing record, distinct
from the step, holding its own id, waiting for compensation, and
depending exactly on the rolled-back step, which is what compensateWith
builds), the compensator is transitioned from WaitingForCompensation to
Queued with dependencyArgs equal to the one-element list holding the
rolled-back step result, and every other record is unchanged. -/
theorem claim_C3_rollback_effect (s : SagaState) (eid : String) (r : ISagaStep)
    (hrec : getStep s.steps eid = some r) :
    (r.compensatorId = none →
      rollbackStep eid s =
        .ok { s with steps := putStep s.steps eid { r with status := some SagaStepStatus.RolledBack } } ∧
      getStep (putStep s.steps eid { r with status := some SagaStepStatus.RolledBack }) eid =
        some { r with status := some SagaStepStatus.RolledBack } ∧
      (∀ k, k ≠ eid →
        getStep (putStep s.steps eid { r with status := some SagaStepStatus.RolledBack }) k =
          getStep s.steps k)) ∧
    (∀ cid rc, r.compensatorId = some cid → cid ≠ eid →
      getStep s.steps cid = some rc → rc.id = some cid →
      rc.status = some SagaStepStatus.WaitingForCompensation →
      rc.dependsOn = some [eid] →
      ∃ s2, rollbackStep eid s = .ok s2 ∧
        s2.sagaStatus = s.sagaStatus ∧
        getStep s2.steps eid = some { r with status := some SagaStepStatus.RolledBack } ∧
        getStep s2.steps cid =
          some { rc with dependencyArgs := some [r.result], status := some SagaStepStatus.Queued } ∧
        (∀ k, k ≠ eid → k ≠ cid → getStep s2.steps k = getStep s.steps k)) := by
  constructor
  · intro hc
    exact ⟨rollbackStep_none_spec hrec hc, getStep_put_same _ _ _,
      fun k hk => getStep_put_other _ _ _ _ hk⟩
  · intro cid rc hc hne hcrec hcid hcst hdep
    refine ⟨_, rollbackStep_comp_spec hrec hc hne hcrec hcid hdep, rfl, ?_, ?_, ?_⟩
    · rw [getStep_put_other _ _ _ _ (Ne.symm hne)]
      exact getStep_put_same _ _ _
    · exact getStep_put_same _ _ _
    · intro k hk1 hk2
      rw [getStep_put_other _ _ _ _ hk2, getStep_put_other _ _ _ _ hk1]

/-- Witness for C3: rolling back the Finished step of the concrete failed
saga fixC3 sets it RolledBack and enqueues its compensator with the
result as sole dependency argument; rolling back the compensator-free
fixC3bRec touches only that record. -/
theorem claim_C3_witness :
    rollbackStep "1" fixC3b =
      .ok { fixC3b with
            steps := putStep fixC3b.steps "1"
              { fixC3bRec with status := some SagaStepStatus.RolledBack } } ∧
    (rollbackStep "1" fixC3).state.sagaStatus = SagaStatus.Failed ∧
    getStep (rollbackStep "1" fixC3).state.steps "1" =
      some { fixC3parent with status := some SagaStepStatus.RolledBack } ∧
    getStep (rollbackStep "1" fixC3).state.steps "2" =
      some { fixC3comp with dependencyArgs := some [some (Val.vstr "res")],
                            status := some SagaStepStatus.Queued } := by
  have hb := (claim_C3_rollback_effect fixC3b "1" fixC3bRec (by decide)).1 rfl
  have h2 := (claim_C3_rollback_effect fixC3 "1" fixC3parent (by decide)).2
    "2" fixC3comp rfl (by decide) (by decide) rfl rfl rfl
  obtain ⟨s2, hrun, hsaga, hg1, hg2, _⟩ := h2
  rw [hrun]
  exact ⟨hb.1, hsaga, hg1, hg2⟩

/-! ### Claims C2 and C6 -/

/-- C2, counterexample: the claim states that stepFailed always leaves
the named step with status Failed and rolls back only the other Finished
steps. On a saga whose named step is itself Finished at the moment of
enumeration, the code first fails it and then rolls it back with the
others, so the step ends RolledBack, not Failed. -/
theorem claim_C2_counterexample :
    stepFailed "1" fixC2 = .ok fixC2post ∧
    getStep fixC2post.steps "1" =
      some { id := some "1", status := some SagaStepStatus.RolledBack,
             result := some (Val.vnum 7) } ∧
    ¬ getStep fixC2post.steps "1" =
        some { fixC2rec with status := some SagaStepStatus.Failed } := by
  refine ⟨by decide, by decide, by decide⟩

/-- C2 as amended: for an initialized saga whose step table is well
formed (distinct keys, id fields equal to keys, each Finished step with a
compensatorId pointing to an existing waiting compensator that depends
exactly on it and is shared with no other step, and the named step not
being such a compensator) and whose named step has a record, stepFailed
sets the saga status to Failed, sets the named step to Failed unless it
was Finished at enumeration (in which case it is rolled back with the
others, ending RolledBack), invokes rollback on exactly the steps that
were Finished at the moment of enumeration (each ends RolledBack, its
compensator enqueued with the parent result), and leaves every other
record, in particular Queued and Running siblings and waiting
compensators of non-Finished parents, unchanged. -/
theorem claim_C2_stepFailed_contract (s : SagaState) (stepId : String) (r0 : ISagaStep)
    (hnd : (s.steps.map Prod.fst).Nodup)
    (hid : ∀ p ∈ s.steps, p.2.id = some p.1)
    (hcomp : ∀ p ∈ s.steps, p.2.status = some SagaStepStatus.Finished →
      ∀ cid, p.2.compensatorId = some cid → cid ≠ p.1 ∧
        ∃ rc, getStep s.steps cid = some rc ∧ rc.id = some cid ∧
          rc.status = some SagaStepStatus.WaitingForCompensation ∧ rc.dependsOn = some [p.1])
    (hrec : getStep s.steps stepId = some r0)
    (hnotc : ∀ p ∈ s.steps, p.2.status = some SagaStepStatus.Finished →
      p.2.compensatorId ≠ some stepId) :
    ∃ s2, stepFailed stepId s = .ok s2 ∧
      s2.sagaStatus = SagaStatus.Failed ∧
      (r0.status = some SagaStepStatus.Finished →
        getStep s2.steps stepId = some { r0 with status := some SagaStepStatus.RolledBack }) ∧
      (r0.status ≠ some SagaStepStatus.Finished →
        getStep s2.steps stepId = some { r0 with status := some SagaStepStatus.Failed }) ∧
      (∀ p ∈ s.steps, p.2.status = some SagaStepStatus.Finished →
        getStep s2.steps p.1 = some { p.2 with status := some SagaStepStatus.RolledBack }) ∧
      (∀ p ∈ s.steps, p.2.status = some SagaStepStatus.Finished →
        ∀ cid rc, p.2.compensatorId = some cid → getStep s.steps cid = some rc →
          getStep s2.steps cid =
            some { rc with dependencyArgs := some [p.2.result],
                           status := some SagaStepStatus.Queued }) ∧
      (∀ k, k ≠ stepId →
        (∀ p ∈ s.steps, p.2.status = some SagaStepStatus.Finished →
          p.1 ≠ k ∧ p.2.compensatorId ≠ some k) →
        getStep s2.steps k = getStep s.steps k) :=
  stepFailed_spec s stepId r0 hnd hid hcomp hrec hnotc

/-- Witness for C2 at the concrete saga fixC2w: failing the Running step
marks the saga Failed, the failed step Failed, rolls the Finished step
back, and enqueues the waiting compensator with the parent result. -/
theorem claim_C2_witness :
    (stepFailed "2" fixC2w).state.sagaStatus = SagaStatus.Failed ∧
    getStep (stepFailed "2" fixC2w).state.steps "2" =
      some { fixC2w2 with status := some SagaStepStatus.Failed } ∧
    getStep (stepFailed "2" fixC2w).state.steps "1" =
      some { fixC2w1 with status := some SagaStepStatus.RolledBack } ∧
    getStep (stepFailed "2" fixC2w).state.steps "3" =
      some { fixC2w3 with dependencyArgs := some [some (Val.vstr "res")],
                          status := some SagaStepStatus.Queued } := by
  have h := claim_C2_stepFailed_contract fixC2w "2" fixC2w2
    (by decide) (by decide) ?hcomp (by decide) (by decide)
  case hcomp =>
    intro p hp hfin cid hcc
    have hp2 : p = ("1", fixC2w1) ∨ p = ("2", fixC2w2) ∨ p = ("3", fixC2w3) := by
      simpa [fixC2w] using hp
    rcases hp2 with rfl | rfl | rfl
    · simp only [fixC2w1] at hcc
      injection hcc with he
      subst he
      exact ⟨by decide, fixC2w3, by decide, rfl, rfl, rfl⟩
    · exact absurd hfin (by decide)
    · exact absurd hfin (by decide)
  obtain ⟨s2, hrun, hsaga, _, hfail, hrb, hcq, _⟩ := h
  rw [hrun]
  refine ⟨hsaga, hfail (by decide), ?_, ?_⟩
  · exact hrb ("1", fixC2w1) (by decide) rfl
  · exact hcq ("1", fixC2w1) (by decide) rfl "3" fixC2w3 rfl (by decide)

/-- Membership failure gives a false contains test. -/
theorem contains_eq_false_of_not_mem {l : List String} {a : String} (h : a ∉ l) :
    l.contains a = false := by
  induction l with
  | nil => rfl
  | cons b t ih =>
    have hab : ¬(b == a) := by
      simp only [beq_iff_eq]
      intro hh
      exact h (hh ▸ List.mem_cons_self _ _)
    have hat : a ∉ t := fun hh => h (List.mem_cons_of_mem _ hh)
    simp [List.contains_cons, Bool.or_eq_false_iff]
    exact ⟨by simpa [beq_iff_eq] using fun hh => hab (by simp [hh]), by simpa using ih hat⟩

/-- C6: when the dispatcher runs a Queued step whose workerName matches
no registered worker, then with failSagaOnError set (the constructor
default), the dispatch is exactly the stepFailed path of the saga: the
step ends Failed, the saga ends Failed, and Finished steps are rolled
back (triggering compensation); with the policy disabled, the dispatch
returns without touching any record. The well-formedness hypotheses are
those of the stepFailed characterization. -/
theorem claim_C6_unknown_worker_policy (s : SagaState) (stepId : String) (r : ISagaStep)
    (workers : List String) (wn : String)
    (hnd : (s.steps.map Prod.fst).Nodup)
    (hid : ∀ p ∈ s.steps, p.2.id = some p.1)
    (hcomp : ∀ p ∈ s.steps, p.2.status = some SagaStepStatus.Finished →
      ∀ cid, p.2.compensatorId = some cid → cid ≠ p.1 ∧
        ∃ rc, getStep s.steps cid = some rc ∧ rc.id = some cid ∧
          rc.status = some SagaStepStatus.WaitingForCompensation ∧ rc.dependsOn = some [p.1])
    (hrec : getStep s.steps stepId = some r)
    (hst : r.status = some SagaStepStatus.Queued)
    (hwn : r.workerName = some wn)
    (hunknown : wn ∉ workers) :
    defaultFailSagaOnError = true ∧
    dispatch workers true stepId s = stepFailed stepId s ∧
    (∃ s2, stepFailed stepId s = .ok s2 ∧
      s2.sagaStatus = SagaStatus.Failed ∧
      getStep s2.steps stepId = some { r with status := some SagaStepStatus.Failed } ∧
      (∀ p ∈ s.steps, p.2.status = some SagaStepStatus.Finished →
        getStep s2.steps p.1 = some { p.2 with status := some SagaStepStatus.RolledBack })) ∧
    dispatch workers false stepId s = .ok s := by
  have hidf : r.id = some stepId := hid _ (getStep_mem hrec)
  have hknown : (match r.workerName with
      | some wn2 => workers.contains wn2
      | none => false) = false := by
    rw [hwn]
    exact contains_eq_false_of_not_mem hunknown
  have hnotc : ∀ p ∈ s.steps, p.2.status = some SagaStepStatus.Finished →
      p.2.compensatorId ≠ some stepId := by
    intro p hp hfin hcc
    obtain ⟨_, rc, hrc, _, hrcst, _⟩ := hcomp p hp hfin stepId hcc
    rw [hrec] at hrc
    injection hrc with he
    rw [← he] at hrcst
    rw [hst] at hrcst
    exact absurd hrcst (by decide)
  have hdisp : ∀ ff : Bool, dispatch workers ff stepId s = runStep workers ff r s := by
    intro ff
    simp only [dispatch, hrec, hidf, hst]
    rfl
  have hrunstep : ∀ ff : Bool, runStep workers ff r s =
      if ff then stepFailed stepId s else .ok s := by
    intro ff
    simp only [runStep, hidf, hknown]
    cases ff <;> rfl
  obtain ⟨s2, hrun, hsaga, _, hfail, hrb, _, _⟩ :=
    stepFailed_spec s stepId r hnd hid hcomp hrec hnotc
  refine ⟨rfl, ?_, ⟨s2, hrun, hsaga, ?_, hrb⟩, ?_⟩
  · rw [hdisp true, hrunstep true]
    rfl
  · apply hfail
    rw [hst]
    intro hh
    cases hh
  · rw [hdisp false, hrunstep false]
    rfl

/-- Witness for C6 at the concrete saga fixC6 with registry containing
only the worker w: dispatching the Queued step of the unregistered ghost
worker with the default policy fails the step and the saga and rolls the
Finished step back; with the policy off nothing changes. -/
theorem claim_C6_witness :
    (dispatch ["w"] true "1" fixC6).state.sagaStatus = SagaStatus.Failed ∧
    getStep (dispatch ["w"] true "1" fixC6).state.steps "1" =
      some { fixC6a with status := some SagaStepStatus.Failed } ∧
    getStep (dispatch ["w"] true "1" fixC6).state.steps "2" =
      some { fixC6b with status := some SagaStepStatus.RolledBack } ∧
    dispatch ["w"] false "1" fixC6 = .ok fixC6 := by
  have h := claim_C6_unknown_worker_policy fixC6 "1" fixC6a
    ["w"] "ghost" (by decide) (by decide) ?hcomp (by decide) rfl rfl (by decide)
  case hcomp =>
    intro p hp hfin cid hcc
    have hp2 : p = ("1", fixC6a) ∨ p = ("2", fixC6b) := by
      simpa [fixC6] using hp
    rcases hp2 with rfl | rfl
    · exact absurd hfin (by decide)
    · simp [fixC6b] at hcc
  obtain ⟨_, hdisp, ⟨s2, hrun, hsaga, hfail, hrb⟩, hoff⟩ := h
  rw [hdisp, hrun]
  refine ⟨hsaga, hfail, ?_, hoff⟩
  exact hrb ("2", fixC6b) (by decide) rfl

/-! ### Saga-status preservation and frame lemmas for the scheduler -/

theorem enqueueStep_saga (eid : String) (s : SagaState) :
    (enqueueStep eid s).state.sagaStatus = s.sagaStatus := by
  unfold enqueueStep
  split
  · rfl
  · dsimp only
    repeat' split
    all_goals rfl

theorem enqueueAction_saga (oid : Option String) (s : SagaState) :
    (enqueueAction oid s).state.sagaStatus = s.sagaStatus := by
  cases oid with
  | none => rfl
  | some eid => exact enqueueStep_saga eid s

theorem rollbackStep_saga (eid : String) (s : SagaState) :
    (rollbackStep eid s).state.sagaStatus = s.sagaStatus := by
  unfold rollbackStep
  split
  · rfl
  · dsimp only
    split
    · rfl
    · split
      · rfl
      · split
        · rfl
        · rw [enqueueStep_saga]

theorem rollbackAction_saga (oid : Option String) (s : SagaState) :
    (rollbackAction oid s).state.sagaStatus = s.sagaStatus := by
  cases oid with
  | none => rfl
  | some eid => exact rollbackStep_saga eid s

theorem runSeq_saga (f : Option String → SagaState → DbResult)
    (hf : ∀ oid s, (f oid s).state.sagaStatus = s.sagaStatus) :
    ∀ (ids : List (Option String)) (s : SagaState),
      (runSeq f ids s).state.sagaStatus = s.sagaStatus := by
  intro ids
  induction ids with
  | nil => intro s; rfl
  | cons oid rest ih =>
    intro s
    simp only [runSeq]
    cases hr : f oid s with
    | ok s1 =>
      have h1 := hf oid s
      rw [hr] at h1
      simp only [DbResult.state] at h1
      rw [ih s1, h1]
    | err m s1 =>
      have h1 := hf oid s
      rw [hr] at h1
      simp only [DbResult.state] at h1
      cases hr2 : runSeq f rest s1 with
      | ok s2 =>
        have h2 := ih s1
        rw [hr2] at h2
        simp only [DbResult.state] at h2
        simp only [hr2, DbResult.state]
        rw [h2, h1]
      | err m2 s2 =>
        have h2 := ih s1
        rw [hr2] at h2
        simp only [DbResult.state] at h2
        simp only [hr2, DbResult.state]
        rw [h2, h1]

/-- The case analysis of Saga.tick. -/
theorem tick_cases (t : SagaState) :
    (t.sagaStatus ≠ SagaStatus.Running ∧ tick t = .ok t) ∨
    (t.sagaStatus = SagaStatus.Running ∧ (unqueuedOf t).length = 0 ∧
      tick t = .ok { t with sagaStatus := SagaStatus.Finished }) ∨
    (t.sagaStatus = SagaStatus.Running ∧ (unqueuedOf t).length ≠ 0 ∧
      tick t = runSeq enqueueAction ((readyOf t).map ISagaStep.id) t) := by
  by_cases h1 : t.sagaStatus ≠ SagaStatus.Running
  · exact Or.inl ⟨h1, by simp [tick, h1]⟩
  · have h1e : t.sagaStatus = SagaStatus.Running := not_not.mp h1
    by_cases h2 : (unqueuedOf t).length = 0
    · exact Or.inr (Or.inl ⟨h1e, h2, by simp [tick, h1, h2]⟩)
    · exact Or.inr (Or.inr ⟨h1e, h2, by simp [tick, h1, h2]⟩)

theorem tick_saga (t : SagaState) :
    (tick t).state.sagaStatus = t.sagaStatus ∨
    (tick t).state.sagaStatus = SagaStatus.Finished := by
  rcases tick_cases t with ⟨_, he⟩ | ⟨_, _, he⟩ | ⟨_, _, he⟩
  · rw [he]; exact Or.inl rfl
  · rw [he]; exact Or.inr rfl
  · rw [he, runSeq_saga enqueueAction enqueueAction_saga]
    exact Or.inl rfl

/-- When the unqueued list of a state is empty, no stored record is in
status Created. -/
theorem no_created_of_unqueued_nil {t : SagaState}
    (h : (unqueuedOf t).length = 0) :
    ∀ k rk, getStep t.steps k = some rk → rk.status ≠ some SagaStepStatus.Created := by
  intro k rk hget hst
  have hnil : unqueuedOf t = [] := List.length_eq_zero.mp h
  have hmem : rk ∈ allRecs t := getStep_mem_snd hget
  have := List.filter_eq_nil_iff.mp hnil rk hmem
  simp [hst] at this

/-- stepFailed always leaves the saga record Failed, error or not. -/
theorem stepFailed_saga (stepId : String) (s : SagaState) :
    (stepFailed stepId s).state.sagaStatus = SagaStatus.Failed := by
  unfold stepFailed
  dsimp only
  split
  · rfl
  · split
    · rfl
    · rw [runSeq_saga rollbackAction rollbackAction_saga]
      rfl

/-- One enqueue action only ever writes the record under its own id. -/
theorem enqueueAction_frame (oid : Option String) (s : SagaState) (k : String)
    (hk : ∀ eid, oid = some eid → eid ≠ k) :
    getStep (enqueueAction oid s).state.steps k = getStep s.steps k := by
  cases oid with
  | none => rfl
  | some eid =>
    have hne : eid ≠ k := hk eid rfl
    show getStep (enqueueStep eid s).state.steps k = getStep s.steps k
    unfold enqueueStep
    split
    · rfl
    · dsimp only
      split
      · rfl
      · rfl
      · simp only [DbResult.state, updStep]
        exact getStep_put_other _ _ _ _ (Ne.symm hne)

theorem runSeq_enqueue_frame (ids : List (Option String)) (s : SagaState) (k : String)
    (hk : ∀ oid ∈ ids, ∀ eid, oid = some eid → eid ≠ k) :
    getStep (runSeq enqueueAction ids s).state.steps k = getStep s.steps k := by
  induction ids generalizing s with
  | nil => rfl
  | cons oid rest ih =>
    have hhead := enqueueAction_frame oid s k (hk oid (List.mem_cons_self _ _))
    have htail : ∀ oid2 ∈ rest, ∀ eid, oid2 = some eid → eid ≠ k :=
      fun oid2 h2 => hk oid2 (List.mem_cons_of_mem _ h2)
    simp only [runSeq]
    cases hr : enqueueAction oid s with
    | ok s1 =>
      rw [hr] at hhead
      simp only [DbResult.state] at hhead
      rw [ih s1 htail, hhead]
    | err m s1 =>
      rw [hr] at hhead
      simp only [DbResult.state] at hhead
      cases hr2 : runSeq enqueueAction rest s1 with
      | ok s2 =>
        have h2 := ih s1 htail
        rw [hr2] at h2
        simp only [DbResult.state] at h2
        simp only [hr2, DbResult.state]
        rw [h2, hhead]
      | err m2 s2 =>
        have h2 := ih s1 htail
        rw [hr2] at h2
        simp only [DbResult.state] at h2
        simp only [hr2, DbResult.state]
        rw [h2, hhead]

/-- Records that are not in status Created are untouched by tick when the
table is well formed (unique keys and id fields equal to keys). -/
theorem tick_frame (t : SagaState)
    (hnd : (t.steps.map Prod.fst).Nodup)
    (hid : ∀ p ∈ t.steps, p.2.id = some p.1)
    (k : String) (rk : ISagaStep)
    (hget : getStep t.steps k = some rk)
    (hnc : rk.status ≠ some SagaStepStatus.Created) :
    getStep (tick t).state.steps k = some rk := by
  rcases tick_cases t with ⟨_, he⟩ | ⟨_, _, he⟩ | ⟨_, _, he⟩
  · rw [he]; exact hget
  · rw [he]; exact hget
  · rw [he]
    rw [runSeq_enqueue_frame _ _ _ ?hids]
    · exact hget
    case hids =>
      intro oid hoid eid hoideq hek
      subst hoideq
      subst hek
      obtain ⟨u, hu, huid⟩ := List.mem_map.mp hoid
      have humem : u ∈ unqueuedOf t := List.mem_filter.mp hu |>.1
      have hucreated : u.status = some SagaStepStatus.Created := by
        have := (List.mem_filter.mp humem).2
        simpa using this
      obtain ⟨p, hp, hps⟩ := List.mem_map.mp (List.mem_filter.mp humem).1
      have hpid : u.id = some p.1 := by rw [← hps]; exact hid p hp
      rw [hpid] at huid
      injection huid with he2
      have hgetu : getStep t.steps p.1 = some u := by
        rw [← hps]
        exact mem_getStep_of_nodup hnd hp
      rw [he2] at hgetu
      rw [hget] at hgetu
      injection hgetu with he3
      rw [he3] at hnc
      exact hnc hucreated

/-! ### Claims about the record layer -/

/-- C7: the claim states that create reads the per-table lastId from the
meta table, writes back its increment, stores the record under that id
and therefore hands out the consecutive stringified ids 1, 2, 3 to
consecutive creates. The checked-in create of helpers/db.ts instead
allocates the id from the uuid library and never touches the meta table:
evaluating two consecutive creates on an empty store returns the two
generated uuids as ids, not 1 and 2, and leaves the meta table empty.
The test suite of the repository asserts the counter behaviour (saga and
step ids equal to 1 and 2), so the code contradicts its own tests. -/
theorem claim_C7_create_uses_uuid_and_ignores_meta :
    (db.create "f47ac10b-58cc-4372" { meta := [], recs := [] } [("status", Val.vnum 1)]).1 =
      [("id", Val.vstr "f47ac10b-58cc-4372"), ("status", Val.vnum 1)] ∧
    (db.create "f47ac10b-58cc-4372" { meta := [], recs := [] } [("status", Val.vnum 1)]).2.meta = [] ∧
    (db.create "9c858901-8a57-4791"
      (db.create "f47ac10b-58cc-4372" { meta := [], recs := [] } [("status", Val.vnum 1)]).2
      [("status", Val.vnum 1)]).1 =
      [("id", Val.vstr "9c858901-8a57-4791"), ("status", Val.vnum 1)] ∧
    (db.create "9c858901-8a57-4791"
      (db.create "f47ac10b-58cc-4372" { meta := [], recs := [] } [("status", Val.vnum 1)]).2
      [("status", Val.vnum 1)]).2.meta = [] ∧
    Val.vstr "f47ac10b-58cc-4372" ≠ Val.vstr "1" ∧
    Val.vstr "9c858901-8a57-4791" ≠ Val.vstr "2" := by
  decide

/-- C9: update of helpers/db.ts never checks that a record exists: on a
missing record the shallow merge happens over the spread of undefined, so
a record holding exactly the fields of the patch is silently created (the
update function is total and raises nothing), the other records are
untouched, and a subsequent get returns the patch alone, with no id field
unless the patch itself carries one. -/
theorem claim_C9_update_creates_missing_record
    (d : DbState) (id : String) (patch : JRec)
    (hmiss : getRec d.recs id = none) :
    getRec (db.update d id patch).recs id = some patch ∧
    (db.update d id patch).meta = d.meta ∧
    (∀ k, k ≠ id → getRec (db.update d id patch).recs k = getRec d.recs k) := by
  refine ⟨?_, rfl, ?_⟩
  · simp [db.update, hmiss, mergeJRec_nil, getRec_put_same]
  · intro k hk
    simp [db.update, hmiss, mergeJRec_nil, getRec_put_other _ _ _ _ hk]

/-- Witness for C9 at a concrete store: the store holds one other record,
the updated id is absent, and after the update the patch alone is stored
under it. -/
theorem claim_C9_witness :
    getRec ([("7", [("a", Val.vnum 5)])] : List (String × JRec)) "3" = none ∧
    getRec (db.update { meta := [("t", 7)], recs := [("7", [("a", Val.vnum 5)])] } "3"
      [("x", Val.vbool true)]).recs "3" = some [("x", Val.vbool true)] := by
  constructor
  · decide
  · exact (claim_C9_update_creates_missing_record
      { meta := [("t", 7)], recs := [("7", [("a", Val.vnum 5)])] } "3"
      [("x", Val.vbool true)] (by decide)).1

/-! ### Claims about enqueueStep -/

/-- C4: for a step whose record exists and whose dependsOn ids all have
records, enqueueStep fails, raising the invariant-violation error and
leaving the whole store unchanged, exactly when some referenced
dependency has a status other than Finished or RolledBack; on success it
stores status Queued together with dependencyArgs holding the result
field of the dependency records positionally in dependsOn order. -/
theorem claim_C4_enqueueStep_dependency_contract
    (s : SagaState) (eid : String) (r : ISagaStep) (ds : List String)
    (hrec : getStep s.steps eid = some r)
    (hds : r.dependsOn.getD [] = ds)
    (hdeps : ∀ d ∈ ds, (getStep s.steps d).isSome) :
    ((∀ d ∈ ds, ∀ rd, getStep s.steps d = some rd → depSatisfied rd) →
      enqueueStep eid s = .ok { s with
        steps := putStep s.steps eid { r with
          dependencyArgs := some (ds.map (fun d => (getStep s.steps d).bind ISagaStep.result)),
          status := some SagaStepStatus.Queued } }) ∧
    ((∃ d ∈ ds, ∃ rd, getStep s.steps d = some rd ∧ ¬depSatisfied rd) →
      enqueueStep eid s = .err invariantViolationMsg s) := by
  have hds2 : (match r.dependsOn with
      | some l => if l.length > 0 then l else []
      | none => []) = ds := by rw [enqueue_ds_eq, hds]
  constructor
  · intro hsat
    have hnone : findErrorDep (ds.map (getStep s.steps)) = Sum.inr none := by
      apply findErrorDep_none
      intro x hx
      obtain ⟨d, hd, hxd⟩ := List.mem_map.mp hx
      obtain ⟨rd, hrd⟩ := Option.isSome_iff_exists.mp (hdeps d hd)
      exact ⟨rd, by rw [← hxd, hrd], hsat d hd rd (by rw [hrd])⟩
    simp only [enqueueStep, hrec, hds2, hnone, updStep_known hrec]
    rw [List.map_map]
    rfl
  · intro hunsat
    have hfound : ∃ d, findErrorDep (ds.map (getStep s.steps)) = Sum.inr (some d) := by
      apply findErrorDep_found
      · intro x hx
        obtain ⟨d, hd, hxd⟩ := List.mem_map.mp hx
        rw [← hxd]
        exact hdeps d hd
      · obtain ⟨d, hd, rd, hrd, hno⟩ := hunsat
        exact ⟨getStep s.steps d, List.mem_map.mpr ⟨d, hd, rfl⟩, rd, hrd, hno⟩
    obtain ⟨d, hfd⟩ := hfound
    simp only [enqueueStep, hrec, hds2, hfd]

/-- Witness for C4 at concrete states: a step depending on a Finished and
a RolledBack step enqueues with their results in order, and a step
depending on a Running step raises the invariant-violation error. -/
theorem claim_C4_witness :
    enqueueStep "3" fixC4A = .ok fixC4Apost ∧
    enqueueStep "2" fixC4B = .err invariantViolationMsg fixC4B := by
  constructor
  · have h := (claim_C4_enqueueStep_dependency_contract fixC4A "3"
      { id := some "3", status := some SagaStepStatus.Created, dependsOn := some ["1", "2"] }
      ["1", "2"] (by decide) (by decide) (by decide)).1 (by decide)
    rw [h]
    decide
  · exact (claim_C4_enqueueStep_dependency_contract fixC4B "2"
      { id := some "2", status := some SagaStepStatus.Created, dependsOn := some ["1"] }
      ["1"] (by decide) (by decide) (by decide)).2
      ⟨"1", by decide, { id := some "1", status := some SagaStepStatus.Running },
        by decide, by decide⟩

/-- C10: the readiness check of Saga.tick ignores dependsOn entries that
match no step record: a Created step all of whose dependencies are absent
from the table collects an empty dependent list and is judged ready, so
tick hands it to enqueueStep, which then throws on the missing dependency
record (a TypeError from reading the status of undefined, before any
write) instead of enqueueing the step; addStep itself never validates
that dependsOn ids refer to existing steps. -/
theorem claim_C10_dangling_dependencies_ready_then_fail
    (s : SagaState) (stepId : String) (r : ISagaStep) (ds : List String)
    (hrec : getStep s.steps stepId = some r)
    (hst : r.status = some SagaStepStatus.Created)
    (hds : r.dependsOn = some ds)
    (hne : ds ≠ [])
    (hmiss : ∀ d ∈ ds, getStep s.steps d = none)
    (hid : ∀ p ∈ s.steps, p.2.id = some p.1) :
    r ∈ readyOf s ∧
    enqueueStep stepId s = .err depUndefinedMsg s ∧
    (∀ wn args newId s2, getStep (addStep wn args ds newId s2).steps newId =
      some (mkNewStep newId wn args ds SagaStepStatus.Created)) := by
  refine ⟨?_, ?_, ?_⟩
  · have hmem : r ∈ allRecs s := getStep_mem_snd hrec
    have hunq : r ∈ unqueuedOf s := by
      apply List.mem_filter.mpr
      exact ⟨hmem, by simp [hst]⟩
    apply List.mem_filter.mpr
    refine ⟨hunq, ?_⟩
    have hfilter : dependentsOf (allRecs s) r = [] := by
      apply List.filter_eq_nil_iff.mpr
      intro st hstm
      obtain ⟨p, hp, hps⟩ := List.mem_map.mp hstm
      have hpid : st.id = some p.1 := by rw [← hps]; exact hid p hp
      rw [hpid]
      simp only [hds, Option.getD_some]
      intro hcontains
      have hkds : p.1 ∈ ds := by simpa using hcontains
      have h1 := hmiss p.1 hkds
      have h2 := getStep_isSome_of_mem (t := s.steps) (j := p.1) (r := p.2) hp
      rw [h1] at h2
      simp at h2
    simp [isReady, hfilter]
  · have hds2 : (match r.dependsOn with
        | some l => if l.length > 0 then l else []
        | none => []) = ds := by
      rw [enqueue_ds_eq, hds, Option.getD_some]
    obtain ⟨d0, rest, hcons⟩ : ∃ d0 rest, ds = d0 :: rest := by
      cases ds with
      | nil => exact absurd rfl hne
      | cons a t => exact ⟨a, t, rfl⟩
    have hmap : ds.map (getStep s.steps) = none :: rest.map (getStep s.steps) := by
      rw [hcons]
      simp [hmiss d0 (by rw [hcons]; exact List.mem_cons_self _ _)]
    simp only [enqueueStep, hrec, hds2, hmap, findErrorDep]
  · intro wn args newId s2
    simp [addStep, getStep_put_same]

/-- Witness for C10: a single Created step depending on the absent id 99
is ready, and enqueueStep throws the TypeError on it. -/
theorem claim_C10_witness :
    fixC10rec ∈ readyOf fixC10 ∧
    enqueueStep "1" fixC10 = .err depUndefinedMsg fixC10 := by
  have h := claim_C10_dangling_dependencies_ready_then_fail fixC10 "1" fixC10rec
    ["99"] (by decide) rfl rfl (by decide) (by decide) (by decide)
  exact ⟨h.1, h.2.1⟩

/-! ### Claim C8 -/

theorem putStep_mem {t : StepTable} {j : String} {r : ISagaStep} {p : String × ISagaStep}
    (h : p ∈ putStep t j r) : p = (j, r) ∨ p ∈ t := by
  induction t with
  | nil => simpa [putStep] using h
  | cons q t ih =>
    obtain ⟨k, x⟩ := q
    by_cases hk : k = j
    · subst hk
      simp only [putStep, if_pos rfl] at h
      rcases List.mem_cons.mp h with h1 | h1
      · exact Or.inl h1
      · exact Or.inr (List.mem_cons_of_mem _ h1)
    · simp only [putStep, if_neg hk] at h
      rcases List.mem_cons.mp h with h1 | h1
      · exact Or.inr (h1 ▸ List.mem_cons_self _ _)
      · rcases ih h1 with h2 | h2
        · exact Or.inl h2
        · exact Or.inr (List.mem_cons_of_mem _ h2)

theorem map_fst_putStep {t : StepTable} {j : String} {r : ISagaStep}
    (h : (getStep t j).isSome) :
    (putStep t j r).map Prod.fst = t.map Prod.fst := by
  induction t with
  | nil => simp [getStep] at h
  | cons q t ih =>
    obtain ⟨k, x⟩ := q
    by_cases hk : k = j
    · subst hk
      simp [putStep]
    · simp only [getStep, if_neg hk] at h
      simp [putStep, if_neg hk, ih h]

/-- C8: on a well-formed table (unique keys, id fields equal to keys),
for a step with a stored record, stepFinished throws the encoding error
and leaves the whole store untouched exactly when the supplied result
fails the stringify round trip (in this value model the truthy function
value is the non-encodable value, so the truthiness guard never skips a
failing value); when the result is JSON-encodable, or absent, the step
record ends with the result stored and status Finished, whatever the
trailing tick then does to the saga record and to other Created steps. -/
theorem claim_C8_stepFinished_encoding (s : SagaState) (stepId : String) (r : ISagaStep)
    (result : Option Val)
    (hnd : (s.steps.map Prod.fst).Nodup)
    (hid : ∀ p ∈ s.steps, p.2.id = some p.1)
    (hrec : getStep s.steps stepId = some r) :
    ((∃ v, result = some v ∧ jsonEncodable v = false) →
      stepFinished stepId result s = .err encodingErrorMsg s) ∧
    ((∀ v, result = some v → jsonEncodable v = true) →
      getStep (stepFinished stepId result s).state.steps stepId =
        some { r with result := result, status := some SagaStepStatus.Finished }) := by
  constructor
  · rintro ⟨v, rfl, henc⟩
    have hv : v = Val.vfun := by
      cases v <;> first
        | rfl
        | simp [jsonEncodable, stringifyRoundtripFails] at henc
    subst hv
    rfl
  · intro henc
    have hguard : encodingGuardFails result = false := by
      cases result with
      | none => rfl
      | some v =>
        have hv := henc v rfl
        cases v <;> simp [jsonEncodable, stringifyRoundtripFails] at hv <;>
          simp [encodingGuardFails, truthy, stringifyRoundtripFails]
    have hid0 : r.id = some stepId := hid _ (getStep_mem hrec)
    have hrw : stepFinished stepId result s = tick (finishedStep stepId result s) := by
      simp only [stepFinished, hguard, Bool.false_eq_true, if_false, hrec]
      rw [hid0]
    rw [hrw]
    have hup : (finishedStep stepId result s).steps =
        putStep s.steps stepId { r with result := result, status := some SagaStepStatus.Finished } := by
      simp only [finishedStep, updStep_known hrec]
    apply tick_frame
    · show ((finishedStep stepId result s).steps.map Prod.fst).Nodup
      rw [hup, map_fst_putStep (by rw [hrec]; rfl)]
      exact hnd
    · show ∀ p ∈ (finishedStep stepId result s).steps, p.2.id = some p.1
      rw [hup]
      intro p hp
      rcases putStep_mem hp with h1 | h1
      · subst h1
        exact hid0
      · exact hid p h1
    · show getStep (finishedStep stepId result s).steps stepId = _
      rw [hup]
      exact getStep_put_same _ _ _
    · intro hh
      cases hh

/-- Witness for C8: finishing the Running step of fixC8 with a function
value throws the encoding error and changes nothing, while finishing it
with a string stores the result and marks the step Finished. -/
theorem claim_C8_witness :
    stepFinished "1" (some Val.vfun) fixC8 = .err encodingErrorMsg fixC8 ∧
    getStep (stepFinished "1" (some (Val.vstr "done")) fixC8).state.steps "1" =
      some { fixC8rec with result := some (Val.vstr "done"),
                           status := some SagaStepStatus.Finished } := by
  have h1 := claim_C8_stepFinished_encoding fixC8 "1" fixC8rec (some Val.vfun)
    (by decide) (by decide) (by decide)
  have h2 := claim_C8_stepFinished_encoding fixC8 "1" fixC8rec (some (Val.vstr "done"))
    (by decide) (by decide) (by decide)
  refine ⟨h1.1 ⟨Val.vfun, rfl, rfl⟩, ?_⟩
  have := h2.2 (fun v hv => by injection hv with he; rw [← he]; rfl)
  exact this

/-! ### Case analyses of stepFinished and dispatch -/

theorem stepFinished_cases (j : String) (res : Option Val) (s : SagaState) :
    (stepFinished j res s).state = s ∨
    ∃ eid, stepFinished j res s = tick (finishedStep eid res s) := by
  unfold stepFinished
  split
  · exact Or.inl rfl
  · split
    · exact Or.inl rfl
    · split
      · exact Or.inl rfl
      · exact Or.inr ⟨_, rfl⟩

theorem dispatch_cases (ws : List String) (ff : Bool) (j : String) (s : SagaState) :
    (dispatch ws ff j s).state.sagaStatus = s.sagaStatus ∨
    ∃ eid, dispatch ws ff j s = stepFailed eid s := by
  unfold dispatch
  split
  · exact Or.inl rfl
  · split
    · unfold runStep
      split
      · exact Or.inl rfl
      · dsimp only
        split
        · exact Or.inl rfl
        · split
          · exact Or.inr ⟨_, rfl⟩
          · exact Or.inl rfl
    · exact Or.inl rfl

/-! ### Claims C1 and C5 -/

/-- C1, counterexample: the claim states that a saga is marked Finished
only when every non-compensator step is Finished. On the reachable trace
with two independent steps, finishing the first marks the saga Finished
while the second, which no record designates as a compensator, is still
Queued: the tick only checks that no step is in status Created. -/
theorem claim_C1_counterexample :
    Reachable fixC1bad ∧
    fixC1bad.sagaStatus = SagaStatus.Finished ∧
    (getStep fixC1bad.steps "2").map ISagaStep.status = some (some SagaStepStatus.Queued) ∧
    (∀ p ∈ fixC1bad.steps, p.2.compensatorId ≠ some "2") := by
  refine ⟨?_, by decide, by decide, by decide⟩
  exact Reachable.next _ (.stepFinished "1" none)
    (Reachable.next _ Op.start
      (Reachable.next _ (.addStep "w" [] [] "2")
        (Reachable.next _ (.addStep "w" [] [] "1") Reachable.init)))

/-- C1 as amended: whenever one public operation takes the saga record of
a saga from a non-Finished status to Finished, the resulting store holds
no step in status Created; steps may however still be Queued or Running
at that moment, so the claimed invariant holds only for the Created
status. -/
theorem claim_C1_finished_means_no_created (op : Op) (s : SagaState)
    (hpre : s.sagaStatus ≠ SagaStatus.Finished)
    (hpost : (applyOp op s).state.sagaStatus = SagaStatus.Finished) :
    ∀ k rk, getStep (applyOp op s).state.steps k = some rk →
      rk.status ≠ some SagaStepStatus.Created := by
  cases op with
  | addStep wn args deps newId => exact absurd hpost hpre
  | compensateWith pid wn args newId => exact absurd hpost hpre
  | start =>
    rcases tick_cases { s with sagaStatus := SagaStatus.Running } with
      ⟨hne, _⟩ | ⟨_, hlen, he⟩ | ⟨_, _, he⟩
    · exact absurd rfl hne
    · intro k rk hget
      rw [show applyOp Op.start s = tick { s with sagaStatus := SagaStatus.Running } from rfl,
        he] at hget
      exact no_created_of_unqueued_nil hlen k rk hget
    · rw [show applyOp Op.start s = tick { s with sagaStatus := SagaStatus.Running } from rfl,
        he, runSeq_saga enqueueAction enqueueAction_saga] at hpost
      exact SagaStatus.noConfusion (show SagaStatus.Running = SagaStatus.Finished from hpost)
  | stepFinished j res =>
    rcases stepFinished_cases j res s with h | ⟨eid, he⟩
    · rw [show applyOp (Op.stepFinished j res) s = stepFinished j res s from rfl, h] at hpost
      exact absurd hpost hpre
    · rw [show applyOp (Op.stepFinished j res) s = stepFinished j res s from rfl, he] at hpost ⊢
      rcases tick_cases (finishedStep eid res s) with
        ⟨_, he2⟩ | ⟨_, hlen, he2⟩ | ⟨_, _, he2⟩
      · rw [he2] at hpost
        exact absurd hpost hpre
      · intro k rk hget
        rw [he2] at hget
        exact no_created_of_unqueued_nil hlen k rk hget
      · rw [he2, runSeq_saga enqueueAction enqueueAction_saga] at hpost
        exact absurd hpost hpre
  | stepFailed j =>
    have hfs := stepFailed_saga j s
    rw [show applyOp (Op.stepFailed j) s = stepFailed j s from rfl, hfs] at hpost
    exact SagaStatus.noConfusion hpost
  | dispatch ws ff j =>
    rcases dispatch_cases ws ff j s with h | ⟨eid, he⟩
    · rw [show applyOp (Op.dispatch ws ff j) s = dispatch ws ff j s from rfl, h] at hpost
      exact absurd hpost hpre
    · rw [show applyOp (Op.dispatch ws ff j) s = dispatch ws ff j s from rfl, he,
        stepFailed_saga eid s] at hpost
      exact SagaStatus.noConfusion hpost

/-- Witness for C1 as amended: starting the one-step saga fixC1w marks it
Finished at once, and the theorem yields that its step, whose record is
untouched, is not in status Created. -/
theorem claim_C1_witness :
    fixC1w.sagaStatus ≠ SagaStatus.Finished ∧
    (applyOp Op.start fixC1w).state.sagaStatus = SagaStatus.Finished ∧
    fixC1wrec.status ≠ some SagaStepStatus.Created := by
  refine ⟨by decide, by decide, ?_⟩
  exact claim_C1_finished_means_no_created Op.start fixC1w (by decide) (by decide)
    "1" fixC1wrec (by decide)

/-- C5, counterexample: the claim states that once a saga is Failed no
later operation transitions a non-compensator step to Finished. On the
reachable trace with two dispatched steps, failing the first leaves the
saga Failed with the second still Running, and the second worker calling
stepFinished afterwards still transitions that step, which no record
designates as a compensator, to Finished. -/
theorem claim_C5_counterexample :
    Reachable fixC5failed ∧
    fixC5failed.sagaStatus = SagaStatus.Failed ∧
    (getStep fixC5failed.steps "2").map ISagaStep.status = some (some SagaStepStatus.Running) ∧
    fixC5after = (applyOp (.stepFinished "2" (some (.vstr "late"))) fixC5failed).state ∧
    (getStep fixC5after.steps "2").map ISagaStep.status = some (some SagaStepStatus.Finished) ∧
    (∀ p ∈ fixC5failed.steps, p.2.compensatorId ≠ some "2") := by
  refine ⟨?_, by decide, by decide, rfl, by decide, by decide⟩
  exact Reachable.next _ (.stepFailed "1")
    (Reachable.next _ (.dispatch ["w"] true "2")
      (Reachable.next _ (.dispatch ["w"] true "1")
        (Reachable.next _ Op.start
          (Reachable.next _ (.addStep "w" [] [] "2")
            (Reachable.next _ (.addStep "w" [] [] "1") Reachable.init)))))

/-- C5 as amended: a saga record moves to Failed only through the
stepFailed routine (the dispatcher path on an unknown worker calls it):
every public operation that takes the saga from a non-Failed status to
Failed produces exactly the store of a stepFailed call on the pre-state.
After that, stepFinished still transitions any step, compensator or not,
to Finished, as the counterexample shows. -/
theorem claim_C5_failed_only_via_stepFailed (op : Op) (s : SagaState)
    (hpre : s.sagaStatus ≠ SagaStatus.Failed)
    (hpost : (applyOp op s).state.sagaStatus = SagaStatus.Failed) :
    ∃ j, (applyOp op s).state = (stepFailed j s).state := by
  cases op with
  | addStep wn args deps newId => exact absurd hpost hpre
  | compensateWith pid wn args newId => exact absurd hpost hpre
  | start =>
    rcases tick_saga { s with sagaStatus := SagaStatus.Running } with h | h
    · rw [show applyOp Op.start s = tick { s with sagaStatus := SagaStatus.Running } from rfl,
        h] at hpost
      exact SagaStatus.noConfusion (show SagaStatus.Running = SagaStatus.Failed from hpost)
    · rw [show applyOp Op.start s = tick { s with sagaStatus := SagaStatus.Running } from rfl,
        h] at hpost
      exact SagaStatus.noConfusion hpost
  | stepFinished j res =>
    rcases stepFinished_cases j res s with h | ⟨eid, he⟩
    · rw [show applyOp (Op.stepFinished j res) s = stepFinished j res s from rfl, h] at hpost
      exact absurd hpost hpre
    · rw [show applyOp (Op.stepFinished j res) s = stepFinished j res s from rfl, he] at hpost
      rcases tick_saga (finishedStep eid res s) with h2 | h2
      · rw [h2] at hpost
        exact absurd hpost hpre
      · rw [h2] at hpost
        exact SagaStatus.noConfusion hpost
  | stepFailed j => exact ⟨j, rfl⟩
  | dispatch ws ff j =>
    rcases dispatch_cases ws ff j s with h | ⟨eid, he⟩
    · rw [show applyOp (Op.dispatch ws ff j) s = dispatch ws ff j s from rfl, h] at hpost
      exact absurd hpost hpre
    · exact ⟨eid, by rw [show applyOp (Op.dispatch ws ff j) s = dispatch ws ff j s from rfl, he]⟩

/-- Witness for C5 as amended: failing the queued step of the running
saga fixC5w marks the saga Failed, and the theorem factors the resulting
store through a stepFailed call. -/
theorem claim_C5_witness :
    fixC5w.sagaStatus ≠ SagaStatus.Failed ∧
    (applyOp (Op.stepFailed "1") fixC5w).state.sagaStatus = SagaStatus.Failed := by
  obtain ⟨j, hj⟩ := claim_C5_failed_only_via_stepFailed (Op.stepFailed "1") fixC5w
    (by decide) (by decide)
  refine ⟨by decide, ?_⟩
  rw [hj]
  exact stepFailed_saga j fixC5w

end Brokkr
